import Mathlib

/-!
Verification of the IntelliFIM file-integrity-monitoring core.

Shallow embedding of the FIM engine's algorithms:
* `FIMMonitor.calculate_hash` / `calculate_folder_hash`  (fim/core/fim_utils.py)
* `EventDeduplicator.should_process`                     (fim/core/FIM.py)
* `FIMEventHandler._should_backup` and the backup dispatch of
  `on_created` / `on_modified` / `on_deleted`            (fim/core/FIM.py)
* `FIMEventHandler._process_modification`                (fim/core/FIM.py)
* `MonitorChanges.monitor_changes`                       (fim/core/FIM.py)
* `Backup.create_backup` / `restore_backup`              (fim/utils/backup.py)

Modeling conventions:
* wall-clock instants (`time.time()` floats) are integers — only their
  differences are ever compared against window constants;
* SHA-256 is idealized as perfectly collision-free on the sequence of
  `update(...)` chunks fed to it, so a digest value is represented by that
  structured data (`HChunk`);
* a directory-entry name (a Python `str` sorted and compared by code points)
  is its list of code points (`List Nat`), ordered by `lexLe`, which is
  exactly Python's `str` comparison;
* the Django `FileMetadata` table restricted to one `Directory` row is a list
  of `Entry` records; `update_or_create` keyed on `(directory, item_path)`
  updates the single matching record, appends when there is none, and raises
  `MultipleObjectsReturned` when several match — several rows per path are
  legal under the table's uniqueness constraint
  `unique_together = [directory, item_path, status]` (fim/models.py);
* a Python `datetime` is an instant plus an awareness flag (`PyDatetime`):
  `datetime.fromtimestamp(st_mtime)` is naive, a `DateTimeField` read back
  through the ORM under `USE_TZ = True` (IntelliFIM/settings.py) is aware,
  and ordering a naive against an aware value raises `TypeError`;
* exceptions raised inside `Backup.create_backup` abort its walk: the
  single `try` of the method catches them, logs a 'failed' entry and
  returns `None`, with the copies and row upserts already performed left in
  place (the `except` returns normally inside the `transaction.atomic`
  body, so nothing is rolled back).
-/

namespace IntelliFIM

/-! ### Digests (fim_utils.py, FIMMonitor.calculate_hash / calculate_folder_hash)

`calculate_hash` streams a file's bytes through SHA-256 and returns the hex
digest, or `None` when the file does not exist or is unreadable.
`calculate_folder_hash` feeds SHA-256 the folder's own name, then, for each
child in name-sorted order, the child's name followed by the child's digest
(folder digest for subdirectories, file digest for readable files; an
unreadable file contributes only its name). -/

inductive HChunk where
  | hname (s : List Nat)
  | hfile (content : List Nat)
  | hfolder (chunks : List HChunk)

mutual
def HChunk.decEq : (a b : HChunk) → Decidable (a = b)
  | .hname a, .hname b =>
    match List.hasDecEq a b with
    | isTrue h => isTrue (by rw [h])
    | isFalse h => isFalse (by intro hh; injection hh; contradiction)
  | .hname _, .hfile _ => isFalse (by intro h; exact HChunk.noConfusion h)
  | .hname _, .hfolder _ => isFalse (by intro h; exact HChunk.noConfusion h)
  | .hfile _, .hname _ => isFalse (by intro h; exact HChunk.noConfusion h)
  | .hfile a, .hfile b =>
    match List.hasDecEq a b with
    | isTrue h => isTrue (by rw [h])
    | isFalse h => isFalse (by intro hh; injection hh; contradiction)
  | .hfile _, .hfolder _ => isFalse (by intro h; exact HChunk.noConfusion h)
  | .hfolder _, .hname _ => isFalse (by intro h; exact HChunk.noConfusion h)
  | .hfolder _, .hfile _ => isFalse (by intro h; exact HChunk.noConfusion h)
  | .hfolder a, .hfolder b =>
    match HChunk.decEqList a b with
    | isTrue h => isTrue (by rw [h])
    | isFalse h => isFalse (by intro hh; injection hh; contradiction)

def HChunk.decEqList : (a b : List HChunk) → Decidable (a = b)
  | [], [] => isTrue rfl
  | [], _ :: _ => isFalse (by intro h; exact List.noConfusion h)
  | _ :: _, [] => isFalse (by intro h; exact List.noConfusion h)
  | x :: xs, y :: ys =>
    match HChunk.decEq x y, HChunk.decEqList xs ys with
    | isTrue h1, isTrue h2 => isTrue (by rw [h1, h2])
    | isFalse h1, _ => isFalse (by intro h; injection h; contradiction)
    | _, isFalse h2 => isFalse (by intro h; injection h; contradiction)
end

instance : DecidableEq HChunk := HChunk.decEq

/-- A filesystem entry as seen by `calculate_folder_hash`: a (possibly
unreadable) file with its byte content, or a directory with its children.
The name is the entry's list of code points. -/
inductive FSEntry where
  | file (name : List Nat) (readable : Bool) (content : List Nat)
  | dir (name : List Nat) (children : List FSEntry)

def FSEntry.name : FSEntry → List Nat
  | .file n _ _ => n
  | .dir n _ => n

/-- Python's `str` comparison, code point by code point:
`entries.sort(key=lambda x: x.name)` orders by this relation. -/
def lexLe : List Nat → List Nat → Bool
  | [], _ => true
  | _ :: _, [] => false
  | x :: xs, y :: ys => if x < y then true else if y < x then false else lexLe xs ys

/-- Sort the (name, chunk-list) pairs produced for the children by name and
concatenate the chunk lists.  The sort compares only the name component,
which the pair construction preserves positionally, so sorting pairs after
the recursive call produces the same stream as the source's
`entries.sort(key=...)` before it. -/
def flattenSorted (l : List (List Nat × List HChunk)) : List HChunk :=
  ((l.insertionSort (fun a b => lexLe a.1 b.1 = true)).map (·.2)).flatten

mutual
/-- The chunks one child contributes to its parent's digest stream:
`hash_func.update(entry.name.encode())` followed by the child's digest when
it has one (`if file_hash: hash_func.update(...)` — an unreadable file
contributes only its name; a subdirectory contributes its recursive folder
digest, which itself starts with its own name). -/
def childChunks : FSEntry → List HChunk
  | .file n r c => if r then [.hname n, .hfile c] else [.hname n]
  | .dir n children =>
      [.hname n, .hfolder (.hname n :: flattenSorted (childrenChunks children))]

/-- `(child.name, childChunks child)` for each child, in listing order. -/
def childrenChunks : List FSEntry → List (List Nat × List HChunk)
  | [] => []
  | e :: rest => (e.name, childChunks e) :: childrenChunks rest
end

/-- `FIMMonitor.calculate_folder_hash`: `None` on a non-directory path,
otherwise the digest of the name-prefixed, name-sorted recursive stream. -/
def calculate_folder_hash : FSEntry → Option HChunk
  | .file _ _ _ => none
  | .dir n children =>
      some (.hfolder (.hname n :: flattenSorted (childrenChunks children)))

/-- Rename a filesystem entry, keeping everything else. -/
def FSEntry.withName (m : List Nat) : FSEntry → FSEntry
  | .file _ r c => .file m r c
  | .dir _ ch => .dir m ch

/-- The subsequence of name chunks of an update stream (digest chunks —
`hfile`/`hfolder` — are not name chunks). -/
def chunkNames (l : List HChunk) : List (List Nat) :=
  l.filterMap (fun ch => match ch with | .hname s => some s | _ => none)

/-! ### Event deduplication (FIM.py, EventDeduplicator) -/

/-- `self.recent_events` maps `f"{event_type}_{file_path}"` to the time it
was recorded (the stored file-path component plays no role in the logic). -/
structure DedupState where
  window : ℤ
  recent : List (String × ℤ)
deriving DecidableEq

def dedupKey (eventType filePath : String) : String :=
  eventType ++ "_" ++ filePath

/-- The purge loop: drop every key whose recorded time satisfies
`current_time - event_time > self.window_seconds`. -/
def purgeOld (now window : ℤ) (recent : List (String × ℤ)) : List (String × ℤ) :=
  recent.filter (fun kv => decide (now - kv.2 ≤ window))

/-- `EventDeduplicator.should_process`: purge expired keys; if the key is
still present return `False` (duplicate; its recorded time is untouched);
otherwise record the current time and return `True`. -/
def should_process (st : DedupState) (now : ℤ) (eventType filePath : String) :
    Bool × DedupState :=
  let key := dedupKey eventType filePath
  let kept := purgeOld now st.window st.recent
  if (kept.find? (fun kv => kv.1 == key)).isSome then
    (false, { st with recent := kept })
  else
    (true, { st with recent := kept ++ [(key, now)] })

/-! ### Backup rate limiting and event handlers (FIM.py, FIMEventHandler) -/

/-- `self._last_backup_time` keyed by `f"backup_{path}"`. -/
abbrev BackupTimes := List (String × ℤ)

def backupTimeKey (path : String) : String := "backup_" ++ path

def lookupTime (st : BackupTimes) (key : String) : Option ℤ :=
  (st.find? (fun kv => kv.1 == key)).map (·.2)

def setTime (st : BackupTimes) (key : String) (now : ℤ) : BackupTimes :=
  if (st.find? (fun kv => kv.1 == key)).isSome then
    st.map (fun kv => if kv.1 == key then (key, now) else kv)
  else
    st ++ [(key, now)]

/-- `FIMEventHandler._should_backup`: suppress when less than 5 seconds have
passed since the key's recorded trigger time; otherwise record the current
time and allow the backup. -/
def _should_backup (st : BackupTimes) (now : ℤ) (path : String) :
    Bool × BackupTimes :=
  let key := backupTimeKey path
  match lookupTime st key with
  | some t => if now - t < 5 then (false, st) else (true, setTime st key now)
  | none => (true, setTime st key now)

/-- Python's `str.startswith`, code point by code point. -/
def isPrefixCh : List Char → List Char → Bool
  | [], _ => true
  | _ :: _, [] => false
  | x :: xs, y :: ys => x == y && isPrefixCh xs ys

def startsWithB (s d : String) : Bool := isPrefixCh d.data s.data

structure WatchEvent where
  srcPath : String
  isDirectory : Bool
deriving DecidableEq

/-- `FIMEventHandler._is_valid_event` (for an active handler): the event path
must start with one of the currently monitored directories. -/
def _is_valid_event (dirs : List String) (eventPath : String) : Bool :=
  dirs.any (fun d => startsWithB eventPath d)

/-- The dispatch loop of `on_created` / `on_modified`: the first monitored
directory the event path starts with receives `create_backup`. -/
def backupTarget (dirs : List String) (path : String) : Option String :=
  dirs.find? (fun d => startsWithB path d)

/-- Observable outcome of one watcher callback. -/
structure EventOutcome where
  dbTaskDispatched : Bool
  backupDispatched : Option String
  dedupState : DedupState
  backupTimes : BackupTimes
deriving DecidableEq

/-- Common body of `on_created` and `on_modified` (they differ only in the
event-type string and in choosing the file vs. folder hash, whose value does
not influence dispatch): validity filter, deduplication, dispatch of the DB
task, then — `if not event.is_directory and self._should_backup(_path)`,
short-circuiting, so `_should_backup` is not even consulted for a directory
event — the backup of the first matching monitored directory. -/
def handle_file_event (eventType : String) (dirs : List String)
    (dedup : DedupState) (bk : BackupTimes) (now : ℤ) (ev : WatchEvent) :
    EventOutcome :=
  if ¬ _is_valid_event dirs ev.srcPath then ⟨false, none, dedup, bk⟩
  else
    match should_process dedup now eventType ev.srcPath with
    | (false, d') => ⟨false, none, d', bk⟩
    | (true, d') =>
      if ev.isDirectory then ⟨true, none, d', bk⟩
      else
        match _should_backup bk now ev.srcPath with
        | (false, bk') => ⟨true, none, d', bk'⟩
        | (true, bk') => ⟨true, backupTarget dirs ev.srcPath, d', bk'⟩

def on_created (dirs : List String) (dedup : DedupState) (bk : BackupTimes)
    (now : ℤ) (ev : WatchEvent) : EventOutcome :=
  handle_file_event "created" dirs dedup bk now ev

def on_modified (dirs : List String) (dedup : DedupState) (bk : BackupTimes)
    (now : ℤ) (ev : WatchEvent) : EventOutcome :=
  handle_file_event "modified" dirs dedup bk now ev

/-- `on_deleted`: validity filter, deduplication, dispatch of
`_process_deletion`; the source contains no backup submission at all. -/
def on_deleted (dirs : List String) (dedup : DedupState) (bk : BackupTimes)
    (now : ℤ) (ev : WatchEvent) : EventOutcome :=
  if ¬ _is_valid_event dirs ev.srcPath then ⟨false, none, dedup, bk⟩
  else
    match should_process dedup now "deleted" ev.srcPath with
    | (false, d') => ⟨false, none, d', bk⟩
    | (true, d') => ⟨true, none, d', bk⟩

/-! ### Monitoring start (FIM.py, MonitorChanges.monitor_changes) -/

/-- A requested root together with whether it exists on disk. -/
structure ReqDir where
  path : String
  existsOnDisk : Bool
deriving DecidableEq

/-- The first loop of `monitor_changes`: check each requested directory and
`raise FileNotFoundError` at the first one that does not exist (each existing
directory has its baseline initialization submitted to the pool; baseline
failures only warn and cannot abort the start). -/
def checkRootsLoop : List ReqDir → Except String Unit
  | [] => .ok ()
  | d :: rest =>
    if d.existsOnDisk then checkRootsLoop rest
    else .error ("Directory " ++ d.path ++ " does not exist")

/-- The second loop: schedule a watcher for every requested directory that is
not in the exclusion list. -/
def scheduleWatches (dirs : List ReqDir) (excluded : List String) : List String :=
  (dirs.map (·.path)).filter (fun p => !(excluded.contains p))

/-- `MonitorChanges.monitor_changes`: the whole body runs in one `try`; a
`FileNotFoundError` from the existence check is caught by the outer handler,
which logs it, calls `stop_monitoring()` and re-raises — so an error result
means no directory in the request is being watched. -/
def monitor_changes (dirs : List ReqDir) (excluded : List String) :
    Except String (List String) :=
  match checkRootsLoop dirs with
  | .error e => .error e
  | .ok () => .ok (scheduleWatches dirs excluded)

/-- Modelled from the spec: the per-root containment the spec describes for
start — each nonexistent root is rejected and reported without crashing, and
monitoring proceeds for every existing, non-excluded root of the same
request.  Stated for comparison with `monitor_changes`. -/
def monitor_changes_per_root_spec (dirs : List ReqDir) (excluded : List String) :
    Except String (List String) :=
  .ok (((dirs.filter (·.existsOnDisk)).map (·.path)).filter
        (fun p => !(excluded.contains p)))

/-! ### The baseline store (models.py FileMetadata, restricted to one Directory) -/

/-- One `FileMetadata` row of the monitored directory.  Fields not read or
written by the modeled operations (permissions, owner, uuid, ...) are
omitted. -/
structure Entry where
  itemPath : String
  hash : Option HChunk
  lastModified : ℤ
  status : String
  itemType : String
deriving DecidableEq

/-- All rows whose `item_path` equals `p` (the rows an
`update_or_create(directory=..., item_path=p)` call addresses). -/
def entriesAt (store : List Entry) (p : String) : List Entry :=
  store.filter (fun e => e.itemPath == p)

/-! ### Backup engine (backup.py, Backup.create_backup / restore_backup) -/

/-- A file met by `os.walk(source_dir)`: relative path, bytes, readability
(`calculate_hash` returns `None` exactly when the file cannot be read), and
`st_mtime`. -/
structure SrcFile where
  relPath : String
  content : List Nat
  readable : Bool
  mtime : ℤ
deriving DecidableEq

/-- `FIMMonitor.calculate_hash` on a file: `None` when the file cannot be
read, otherwise the digest of its bytes. -/
def calculate_hash (f : SrcFile) : Option HChunk :=
  if f.readable then some (.hfile f.content) else none

/-- A Python `datetime`: an instant plus whether the value carries timezone
information.  `datetime.fromtimestamp(file_stat.st_mtime)` (backup.py line
220) builds a naive value; a `DateTimeField` read back through the ORM is
timezone-aware because `USE_TZ = True` (IntelliFIM/settings.py line 424). -/
structure PyDatetime where
  seconds : ℤ
  aware : Bool
deriving DecidableEq

/-- Python's `>` on datetimes: defined between two naive or two aware
values; mixing a naive with an aware value raises
`TypeError: cannot compare offset-naive and offset-aware datetimes`. -/
def dtGt (a b : PyDatetime) : Except String Bool :=
  if a.aware == b.aware then .ok (decide (b.seconds < a.seconds))
  else .error "TypeError: cannot compare offset-naive and offset-aware datetimes"

/-- `baseline_dict`: item_path → (hash, last_modified) over the rows with
`status='current'` (the DB's uniqueness constraint keeps these keys
distinct).  The `last_modified` values come out of the ORM queryset, hence
timezone-aware. -/
def baselineDictOf (store : List Entry) : List (String × Option HChunk × PyDatetime) :=
  (store.filter (fun e => e.status == "current")).map
    (fun e => (e.itemPath, e.hash, ⟨e.lastModified, true⟩))

/-- `current_hash != baseline_info['hash']` — the stored hash column is
nullable, and comparing a digest with `None` is `True`. -/
def hashDiffers (h : HChunk) (stored : Option HChunk) : Bool :=
  match stored with
  | none => true
  | some x => !(decide (x = h))

/-- The `FileMetadata.objects.update_or_create(directory=..., item_path=...)`
call of `create_backup` (backup.py line 235): it looks up the rows matching
the keyword filter.  With no match it creates a fresh `status='current'`
row; with exactly one it updates that row.  The table's uniqueness
constraint is `unique_together = [directory, item_path, status]`
(fim/models.py line 196), so two rows for one path with different statuses
— e.g. a 'deleted' row next to an 'added' one after a delete-then-recreate
— are legal, and with more than one match Django raises
`MultipleObjectsReturned`. -/
def update_or_create_current (store : List Entry) (f : SrcFile) (h : HChunk) :
    Except String (List Entry) :=
  let hits := store.filter (fun e => e.itemPath == f.relPath)
  if hits.length = 0 then
    .ok (store ++ [⟨f.relPath, some h, f.mtime, "current", "file"⟩])
  else if hits.length = 1 then
    .ok (store.map (fun e =>
      if e.itemPath == f.relPath then
        { e with hash := some h, lastModified := f.mtime,
                 itemType := "file", status := "current" }
      else e))
  else .error "MultipleObjectsReturned"

/-- The evolving state of one `create_backup` run. -/
structure BackupRun where
  copied : List (String × List Nat)
  store : List Entry
  newFiles : List String
  changedFiles : List String
  deletedFiles : List String
deriving DecidableEq

/-- Copy the file into the backup location (`shutil.copy2`, backup.py line
233) and then upsert its `status='current'` row (line 235).  The upsert may
raise after the copy; the second component is the raised exception, if
any. -/
def copyAndUpsert (acc : BackupRun) (f : SrcFile) (h : HChunk) :
    BackupRun × Option String :=
  let acc' := { acc with copied := acc.copied ++ [(f.relPath, f.content)] }
  match update_or_create_current acc'.store f h with
  | .ok store' => ({ acc' with store := store' }, none)
  | .error e => (acc', some e)

/-- One iteration of the walk in `create_backup` (backup.py lines 213-245):
skip the file entirely when `compute_file_hash` returns `None` (the
`continue` at line 216); otherwise classify it against the snapshot
`baseline_dict` — absent: new; digest differs: changed (the `or` at line
227 short-circuits); digest equal: the code must evaluate
`last_modified > baseline_info['last_modified']`, comparing the naive
walked mtime against the aware stored one, which raises `TypeError` —
then copy it and upsert its row.  The second component is the exception
raised during this iteration, if any. -/
def backupStep (base : List (String × Option HChunk × PyDatetime))
    (acc : BackupRun) (f : SrcFile) : BackupRun × Option String :=
  match calculate_hash f with
  | none => (acc, none)
  | some h =>
    match base.find? (fun kv => kv.1 == f.relPath) with
    | none =>
      copyAndUpsert { acc with newFiles := acc.newFiles ++ [f.relPath] } f h
    | some kv =>
      if hashDiffers h kv.2.1 then
        copyAndUpsert { acc with changedFiles := acc.changedFiles ++ [f.relPath] } f h
      else
        match dtGt ⟨f.mtime, false⟩ kv.2.2 with
        | .error e => (acc, some e)
        | .ok true =>
          copyAndUpsert { acc with changedFiles := acc.changedFiles ++ [f.relPath] } f h
        | .ok false => copyAndUpsert acc f h

/-- The file walk of `create_backup`: process files in order until the first
exception; an exception aborts the loop (and the whole `try` body of the
method).  The second component is the aborting exception, if any. -/
def walkFiles (base : List (String × Option HChunk × PyDatetime)) :
    List SrcFile → BackupRun → BackupRun × Option String
  | [], acc => (acc, none)
  | f :: rest, acc =>
    match backupStep base acc f with
    | (acc', none) => walkFiles base rest acc'
    | (acc', some e) => (acc', some e)

/-- Observable outcome of `Backup.create_backup`.  `failed = true` is the
except path (backup.py lines 319-341): the exception is logged as 'failed'
and the method returns `None` — no backup id, no deleted-files report —
while the copies already made and the rows already upserted remain in place
(the `except` returns normally inside the `transaction.atomic` body, so
nothing is rolled back). -/
structure BackupOutcome where
  run : BackupRun
  failed : Bool
deriving DecidableEq

/-- `Backup.create_backup` on a filesystem that is static for the duration of
the run: walk the source files; when the walk completes without an
exception, report as deleted every `baseline_dict` key absent from the
second walk's file listing (deleted paths are reported, never copied) —
when it aborts, the deleted set is never computed. -/
def create_backup (fs : List SrcFile) (store₀ : List Entry) : BackupOutcome :=
  let base := baselineDictOf store₀
  match walkFiles base fs ⟨[], store₀, [], [], []⟩ with
  | (acc, some _) => ⟨acc, true⟩
  | (acc, none) =>
    let deleted := (base.map (·.1)).filter (fun p => !((fs.map (·.relPath)).contains p))
    ⟨{ acc with deletedFiles := deleted }, false⟩

/-- `shutil.copy2(src, dest)`: overwrite the destination path or create it. -/
def copyInto (dest : List (String × List Nat)) (p : String) (c : List Nat) :
    List (String × List Nat) :=
  if dest.any (fun kv => kv.1 == p) then
    dest.map (fun kv => if kv.1 == p then (p, c) else kv)
  else dest ++ [(p, c)]

/-- `Backup.restore_backup`: walk the backup location and copy every file to
the same relative path under the destination (which may already hold
files). -/
def restore_backup (backupFiles : List (String × List Nat))
    (dest₀ : List (String × List Nat)) : List (String × List Nat) :=
  backupFiles.foldl (fun d pc => copyInto d pc.1 pc.2) dest₀

/-- Contents of a destination path after a restore. -/
def lookupFile (d : List (String × List Nat)) (p : String) : Option (List Nat) :=
  (d.find? (fun kv => kv.1 == p)).map (·.2)

/-! ### Modification processing (FIM.py, FIMEventHandler._process_modification) -/

/-- The `defaults` dict of `_process_modification`.  Its `status` entry is
`'modified' if not created else 'current'`, where `created` is the local
variable bound by the *enclosing* `update_or_create` assignment: at the
moment the dict expression is evaluated that assignment has not happened yet,
so the name is unbound and building the dict raises `UnboundLocalError`.
`created?` is the binding visible at evaluation time — always `none` in the
source. -/
structure ModDefaults where
  itemType : String
  hash : HChunk
  status : String
deriving DecidableEq

def modificationDefaults (created? : Option Bool) (isFile : Bool) (h : HChunk) :
    Except String ModDefaults :=
  match created? with
  | none => .error "UnboundLocalError: local variable created referenced before assignment"
  | some created =>
      .ok ⟨if isFile then "file" else "directory", h,
           if !created then "modified" else "current"⟩

/-- What the `update_or_create` of `_process_modification` would write if the
defaults dict were ever constructed (`last_modified` and `detected_at` are
set to the present instant; the row's `previous_hash` column is not among the
defaults and is never written). -/
def applyModDefaults (store : List Entry) (fileName : String) (now : ℤ)
    (d : ModDefaults) : List Entry :=
  if store.any (fun e => e.itemPath == fileName) then
    store.map (fun e =>
      if e.itemPath == fileName then
        { e with hash := some d.hash, lastModified := now,
                 itemType := d.itemType, status := d.status }
      else e)
  else
    store ++ [⟨fileName, some d.hash, now, d.status, d.itemType⟩]

structure ModOutcome where
  store : List Entry
  errorLogged : Bool
deriving DecidableEq

/-- `FIMEventHandler._process_modification`: the whole body is a `try` whose
`except` logs an error entry and returns; evaluating the `defaults` dict
raises `UnboundLocalError` before `update_or_create` can run, so the store is
never touched. -/
def _process_modification (store : List Entry) (fileName : String)
    (isFile : Bool) (now : ℤ) (h : HChunk) : ModOutcome :=
  match modificationDefaults none isFile h with
  | .error _ => ⟨store, true⟩
  | .ok d => ⟨applyModDefaults store fileName now d, false⟩

/-! ## Helper lemmas -/

theorem mem_purgeOld {now window : ℤ} {l : List (String × ℤ)} {kv : String × ℤ}
    (h : kv ∈ purgeOld now window l) : kv ∈ l :=
  (List.mem_filter.mp h).1

theorem find?_purgeOld_none {now window : ℤ} {l : List (String × ℤ)} {key : String}
    (h : ∀ kv ∈ l, kv.1 ≠ key) :
    (purgeOld now window l).find? (fun kv => kv.1 == key) = none := by
  rw [List.find?_eq_none]
  intro kv hkv
  simpa using h kv (mem_purgeOld hkv)

/-! ## Claims -/

/-- **C6** — Deduplicator window behavior: a fresh `(type, path)` key is
processed; a second call within the window is suppressed (and does not renew
the recorded time); a call made more than `window` seconds after the recorded
time is processed again. -/
theorem dedup_window_behavior (w t₀ t₁ t₂ : ℤ) (st₀ : DedupState)
    (eventType filePath : String)
    (hw : st₀.window = w)
    (hfresh : ∀ kv ∈ st₀.recent, kv.1 ≠ dedupKey eventType filePath)
    (h1 : t₁ - t₀ ≤ w) (h2 : w < t₂ - t₀) :
    (should_process st₀ t₀ eventType filePath).1 = true ∧
    (should_process (should_process st₀ t₀ eventType filePath).2
        t₁ eventType filePath).1 = false ∧
    (should_process (should_process (should_process st₀ t₀ eventType filePath).2
        t₁ eventType filePath).2 t₂ eventType filePath).1 = true := by
  have hfind₀ : (purgeOld t₀ st₀.window st₀.recent).find?
      (fun kv => kv.1 == dedupKey eventType filePath) = none :=
    find?_purgeOld_none hfresh
  have hr₀ : should_process st₀ t₀ eventType filePath =
      (true, ⟨st₀.window, purgeOld t₀ st₀.window st₀.recent ++
        [(dedupKey eventType filePath, t₀)]⟩) := by
    simp [should_process, hfind₀]
  have hpurge₁ : purgeOld t₁ st₀.window (purgeOld t₀ st₀.window st₀.recent ++
      [(dedupKey eventType filePath, t₀)]) =
      purgeOld t₁ st₀.window (purgeOld t₀ st₀.window st₀.recent) ++
        [(dedupKey eventType filePath, t₀)] := by
    unfold purgeOld
    rw [List.filter_append]
    congr 1
    simp only [List.filter_cons, List.filter_nil]
    rw [if_pos]
    simp [hw]
    omega
  have hmem₁ : ((purgeOld t₁ st₀.window (purgeOld t₀ st₀.window st₀.recent) ++
      [(dedupKey eventType filePath, t₀)]).find?
        (fun kv => kv.1 == dedupKey eventType filePath)).isSome := by
    rw [List.find?_isSome]
    exact ⟨(dedupKey eventType filePath, t₀), by simp, by simp⟩
  have hr₁ : should_process (⟨st₀.window, purgeOld t₀ st₀.window st₀.recent ++
      [(dedupKey eventType filePath, t₀)]⟩ : DedupState) t₁ eventType filePath =
      (false, ⟨st₀.window, purgeOld t₁ st₀.window (purgeOld t₀ st₀.window st₀.recent) ++
        [(dedupKey eventType filePath, t₀)]⟩) := by
    simp [should_process, hpurge₁, hmem₁]
  have hfind₂ : (purgeOld t₂ st₀.window
      (purgeOld t₁ st₀.window (purgeOld t₀ st₀.window st₀.recent) ++
        [(dedupKey eventType filePath, t₀)])).find?
      (fun kv => kv.1 == dedupKey eventType filePath) = none := by
    rw [List.find?_eq_none]
    intro kv hkv
    rcases List.mem_append.mp (mem_purgeOld hkv) with hmem | hmem
    · simpa using hfresh kv (mem_purgeOld (mem_purgeOld hmem))
    · rcases List.mem_singleton.mp hmem with rfl
      have hcond := (List.mem_filter.mp hkv).2
      simp [hw] at hcond
      omega
  refine ⟨by rw [hr₀], by rw [hr₀, hr₁], ?_⟩
  rw [hr₀, hr₁]
  simp [should_process, hfind₂]

/-- Witness for `dedup_window_behavior` at a concrete input. -/
theorem dedup_window_behavior_witness :
    ((5 : ℤ) - 0 ≤ 10) ∧ ((10 : ℤ) < 11 - 0) ∧
    ((should_process ⟨10, []⟩ 0 "modified" "p").1 = true ∧
     (should_process (should_process ⟨10, []⟩ 0 "modified" "p").2
        5 "modified" "p").1 = false ∧
     (should_process (should_process (should_process ⟨10, []⟩ 0 "modified" "p").2
        5 "modified" "p").2 11 "modified" "p").1 = true) :=
  ⟨by decide, by decide,
   dedup_window_behavior 10 0 5 11 ⟨10, []⟩ "modified" "p" rfl (by simp)
     (by decide) (by decide)⟩

/-- **C10** — A backup is dispatched only by file events: watcher events with
`is_directory` set (creation or modification of a directory) never submit
`create_backup`, and `on_deleted` contains no backup submission at all. -/
theorem no_backup_for_directory_or_deletion (dirs : List String)
    (dedup : DedupState) (bk : BackupTimes) (now : ℤ) (ev : WatchEvent)
    (hdir : ev.isDirectory = true) :
    (on_created dirs dedup bk now ev).backupDispatched = none ∧
    (on_modified dirs dedup bk now ev).backupDispatched = none ∧
    ∀ ev' : WatchEvent, (on_deleted dirs dedup bk now ev').backupDispatched = none := by
  refine ⟨?_, ?_, ?_⟩
  · unfold on_created handle_file_event
    split
    · rfl
    · split
      · rfl
      · simp [hdir]
  · unfold on_modified handle_file_event
    split
    · rfl
    · split
      · rfl
      · simp [hdir]
  · intro ev'
    unfold on_deleted
    split
    · rfl
    · split <;> rfl

/-- Witness for `no_backup_for_directory_or_deletion` at a concrete input. -/
theorem no_backup_for_directory_or_deletion_witness :
    ((⟨"/r/a", true⟩ : WatchEvent).isDirectory = true) ∧
    ((on_created ["/r"] ⟨1, []⟩ [] 0 ⟨"/r/a", true⟩).backupDispatched = none ∧
     (on_modified ["/r"] ⟨1, []⟩ [] 0 ⟨"/r/a", true⟩).backupDispatched = none ∧
     ∀ ev' : WatchEvent,
       (on_deleted ["/r"] ⟨1, []⟩ [] 0 ev').backupDispatched = none) :=
  ⟨rfl, no_backup_for_directory_or_deletion ["/r"] ⟨1, []⟩ [] 0 ⟨"/r/a", true⟩ rfl⟩

/-- **C8, counterexample** — the claim "after any backup of a root is
dispatched, no further backup of that root is dispatched for 5 seconds, even
for events on different paths under the same root" is false: two modification
events on different files of the same root, one second apart, each dispatch a
backup of the root (the cooldown key is the event path, not the root). -/
theorem backup_dispatch_not_per_root :
    (on_modified ["/r"] ⟨1, []⟩ [] 0 ⟨"/r/a", false⟩).backupDispatched = some "/r" ∧
    (on_modified ["/r"]
       (on_modified ["/r"] ⟨1, []⟩ [] 0 ⟨"/r/a", false⟩).dedupState
       (on_modified ["/r"] ⟨1, []⟩ [] 0 ⟨"/r/a", false⟩).backupTimes
       1 ⟨"/r/b", false⟩).backupDispatched = some "/r" ∧
    ((1 : ℤ) - 0 < 5) := by decide

theorem lookupTime_append_single (st : BackupTimes) (key : String) (v : ℤ)
    (h : st.find? (fun kv => kv.1 == key) = none) :
    lookupTime (st ++ [(key, v)]) key = some v := by
  unfold lookupTime
  rw [List.find?_append, h]
  simp

theorem lookupTime_map_update (st : BackupTimes) (key : String) (v : ℤ)
    (h : (st.find? (fun kv => kv.1 == key)).isSome) :
    lookupTime (st.map (fun kv => if kv.1 == key then (key, v) else kv)) key
      = some v := by
  induction st with
  | nil => simp at h
  | cons kv rest ih =>
    by_cases hk : kv.1 = key
    · unfold lookupTime
      simp [List.find?_cons, hk]
    · have hb : (kv.1 == key) = false := by simpa using hk
      have htail : (rest.find? (fun kv => kv.1 == key)).isSome := by
        rw [List.find?_cons] at h
        simpa [hb] using h
      have hres := ih htail
      have hfkv : (if (kv.1 == key) = true then (key, v) else kv) = kv := by
        rw [hb]
        simp
      unfold lookupTime at hres ⊢
      rw [List.map_cons, hfkv, List.find?_cons, hb]
      exact hres

theorem lookupTime_setTime (st : BackupTimes) (key : String) (v : ℤ) :
    lookupTime (setTime st key v) key = some v := by
  unfold setTime
  split
  · exact lookupTime_map_update st key v (by assumption)
  · rename_i hn
    cases hfind : st.find? (fun kv => kv.1 == key) with
    | none => exact lookupTime_append_single st key v hfind
    | some x => rw [hfind] at hn; simp at hn

theorem _should_backup_snd_of_true (bk : BackupTimes) (now : ℤ) (p : String)
    (h : (_should_backup bk now p).1 = true) :
    (_should_backup bk now p).2 = setTime bk (backupTimeKey p) now := by
  simp only [_should_backup] at h ⊢
  split at h
  · split at h
    · simp at h
    · rename_i hcool
      simp [hcool]
  · rfl

theorem handle_file_event_cases (et : String) (dirs : List String)
    (dedup : DedupState) (bk : BackupTimes) (now : ℤ) (ev : WatchEvent) :
    (handle_file_event et dirs dedup bk now ev).backupDispatched = none ∨
    (ev.isDirectory = false ∧
     (handle_file_event et dirs dedup bk now ev).backupTimes =
       setTime bk (backupTimeKey ev.srcPath) now) := by
  unfold handle_file_event
  split
  · exact Or.inl rfl
  · split
    · exact Or.inl rfl
    · split
      · exact Or.inl rfl
      · split
        · exact Or.inl rfl
        · rename_i hdir br bk' hsb
          right
          constructor
          · revert hdir
            cases ev.isDirectory <;> simp
          · have h2 := _should_backup_snd_of_true bk now ev.srcPath (by rw [hsb])
            rw [hsb] at h2
            exact h2

theorem handle_dispatch_inv (et : String) (dirs : List String)
    (dedup : DedupState) (bk : BackupTimes) (now : ℤ) (ev : WatchEvent)
    (r : String)
    (h : (handle_file_event et dirs dedup bk now ev).backupDispatched = some r) :
    ev.isDirectory = false ∧
    (handle_file_event et dirs dedup bk now ev).backupTimes =
      setTime bk (backupTimeKey ev.srcPath) now := by
  rcases handle_file_event_cases et dirs dedup bk now ev with hnone | ⟨hdir, heq⟩
  · rw [hnone] at h
    simp at h
  · exact ⟨hdir, heq⟩

/-- **C8, amended** — The 5-second backup cooldown is per event *path*, not
per root: once a modification event on path `p` dispatches a backup, a second
modification event on the same `p` within 5 seconds dispatches none (events
on other paths under the same root are not suppressed, as
`backup_dispatch_not_per_root` shows). -/
theorem backup_cooldown_is_per_path (dirs : List String) (dedup : DedupState)
    (bk : BackupTimes) (now now' : ℤ) (ev : WatchEvent) (r : String)
    (hgap : now' - now < 5)
    (h1 : (on_modified dirs dedup bk now ev).backupDispatched = some r) :
    (on_modified dirs (on_modified dirs dedup bk now ev).dedupState
       (on_modified dirs dedup bk now ev).backupTimes now' ev).backupDispatched
      = none := by
  obtain ⟨hdir, hbk⟩ := handle_dispatch_inv "modified" dirs dedup bk now ev r h1
  have hsb : _should_backup (setTime bk (backupTimeKey ev.srcPath) now) now'
      ev.srcPath = (false, setTime bk (backupTimeKey ev.srcPath) now) := by
    simp only [_should_backup]
    rw [lookupTime_setTime]
    simp [hgap]
  unfold on_modified
  rw [hbk]
  unfold handle_file_event
  split
  · rfl
  · split
    · rfl
    · rw [if_neg (by simp [hdir]), hsb]

/-- Witness for `backup_cooldown_is_per_path` at a concrete input. -/
theorem backup_cooldown_is_per_path_witness :
    ((1 : ℤ) - 0 < 5) ∧
    (on_modified ["/r"] ⟨1, []⟩ [] 0 ⟨"/r/a", false⟩).backupDispatched = some "/r" ∧
    (on_modified ["/r"] (on_modified ["/r"] ⟨1, []⟩ [] 0 ⟨"/r/a", false⟩).dedupState
       (on_modified ["/r"] ⟨1, []⟩ [] 0 ⟨"/r/a", false⟩).backupTimes
       1 ⟨"/r/a", false⟩).backupDispatched = none :=
  ⟨by decide, by decide,
   backup_cooldown_is_per_path ["/r"] ⟨1, []⟩ [] 0 1 ⟨"/r/a", false⟩ "/r"
     (by decide) (by decide)⟩

/-- **C4, counterexample** — the claim that `monitor_changes` rejects only the
nonexistent roots and proceeds with the existing ones of the same request is
false: with roots `/a` (existing) and `/b` (missing) the call raises
`FileNotFoundError` and no root at all is monitored, while the spec's
behavior would monitor `/a`. -/
theorem monitor_changes_missing_root_aborts :
    monitor_changes [⟨"/a", true⟩, ⟨"/b", false⟩] [] =
      .error "Directory /b does not exist" ∧
    monitor_changes_per_root_spec [⟨"/a", true⟩, ⟨"/b", false⟩] [] = .ok ["/a"] ∧
    monitor_changes [⟨"/a", true⟩, ⟨"/b", false⟩] [] ≠
      monitor_changes_per_root_spec [⟨"/a", true⟩, ⟨"/b", false⟩] [] := by
  refine ⟨rfl, rfl, ?_⟩
  intro h
  rw [show monitor_changes [⟨"/a", true⟩, ⟨"/b", false⟩] [] =
        Except.error "Directory /b does not exist" from rfl] at h
  rw [show monitor_changes_per_root_spec [⟨"/a", true⟩, ⟨"/b", false⟩] [] =
        Except.ok ["/a"] from rfl] at h
  exact Except.noConfusion h

theorem checkRootsLoop_ok_of_all (dirs : List ReqDir)
    (h : ∀ d ∈ dirs, d.existsOnDisk = true) : checkRootsLoop dirs = .ok () := by
  induction dirs with
  | nil => rfl
  | cons d rest ih =>
    rw [checkRootsLoop, if_pos (h d (by simp))]
    exact ih (fun x hx => h x (by simp [hx]))

theorem checkRootsLoop_error_of_missing (dirs : List ReqDir) (d : ReqDir)
    (hd : d ∈ dirs) (hmiss : d.existsOnDisk = false) :
    ∃ msg, checkRootsLoop dirs = .error msg := by
  induction dirs with
  | nil => simp at hd
  | cons x rest ih =>
    rw [checkRootsLoop]
    by_cases hx : x.existsOnDisk = true
    · rw [if_pos hx]
      rcases List.mem_cons.mp hd with rfl | hmem
      · rw [hmiss] at hx
        simp at hx
      · exact ih hmem
    · rw [if_neg hx]
      exact ⟨_, rfl⟩

/-- **C4, amended** — `monitor_changes` is all-or-nothing: when every
requested root exists it starts watching every non-excluded root of the
request; when any requested root does not exist it raises `FileNotFoundError`
(logged, session stopped) and no root of the request is monitored. -/
theorem monitor_changes_all_or_nothing (dirs : List ReqDir) (excluded : List String) :
    ((∀ d ∈ dirs, d.existsOnDisk = true) →
       monitor_changes dirs excluded =
         .ok ((dirs.map (·.path)).filter (fun p => !(excluded.contains p)))) ∧
    (∀ d ∈ dirs, d.existsOnDisk = false →
       ∃ msg, monitor_changes dirs excluded = .error msg) := by
  constructor
  · intro h
    unfold monitor_changes
    rw [checkRootsLoop_ok_of_all dirs h]
    rfl
  · intro d hd hmiss
    obtain ⟨msg, hmsg⟩ := checkRootsLoop_error_of_missing dirs d hd hmiss
    refine ⟨msg, ?_⟩
    unfold monitor_changes
    rw [hmsg]

/-- Witness for `monitor_changes_all_or_nothing` at concrete inputs. -/
theorem monitor_changes_all_or_nothing_witness :
    (monitor_changes [⟨"/a", true⟩] [] = .ok ["/a"]) ∧
    (∃ msg, monitor_changes [⟨"/a", true⟩, ⟨"/b", false⟩] [] = .error msg) :=
  ⟨by simpa using (monitor_changes_all_or_nothing [⟨"/a", true⟩] []).1 (by decide),
   (monitor_changes_all_or_nothing [⟨"/a", true⟩, ⟨"/b", false⟩] []).2
     ⟨"/b", false⟩ (by decide) rfl⟩

/-- **C2** — evaluating the code at the failing input: a path with a current
baseline entry of digest `D(x)` receives a modification event with digest
`D(y)`; `_process_modification` hits the `UnboundLocalError` in its
`defaults` dict, the exception handler logs an error, and *no* Entry is
written — in particular no `status='modified'` Entry with
`previousDigest=D(x)`, `digest=D(y)` exists afterwards. -/
theorem modification_event_writes_no_entry :
    _process_modification [⟨"a.txt", some (.hfile [120]), 0, "current", "file"⟩]
        "a.txt" true 1 (.hfile [121]) =
      ⟨[⟨"a.txt", some (.hfile [120]), 0, "current", "file"⟩], true⟩ ∧
    ∀ e ∈ (_process_modification
        [⟨"a.txt", some (.hfile [120]), 0, "current", "file"⟩]
        "a.txt" true 1 (.hfile [121])).store,
      e.status ≠ "modified" ∧ e.hash ≠ some (.hfile [121]) := by decide

/-- **C3, counterexample** — the claim that `create_backup` never creates,
updates, or deletes a baseline Entry is false: backing up a root containing
one readable file `a.txt` from an empty baseline store leaves the store with
a freshly created `status='current'` Entry for it. -/
theorem backup_engine_mutates_baseline :
    (create_backup [⟨"a.txt", [120], true, 0⟩] []).failed = false ∧
    (create_backup [⟨"a.txt", [120], true, 0⟩] []).run.store =
      [⟨"a.txt", some (.hfile [120]), 0, "current", "file"⟩] ∧
    (create_backup [⟨"a.txt", [120], true, 0⟩] []).run.store ≠ [] := by decide

/-! ## Backup-engine walk lemmas -/

theorem copyAndUpsert_copied (acc : BackupRun) (f : SrcFile) (h : HChunk) :
    (copyAndUpsert acc f h).1.copied = acc.copied ++ [(f.relPath, f.content)] := by
  simp only [copyAndUpsert]
  split <;> rfl

theorem copyAndUpsert_newFiles (acc : BackupRun) (f : SrcFile) (h : HChunk) :
    (copyAndUpsert acc f h).1.newFiles = acc.newFiles := by
  simp only [copyAndUpsert]
  split <;> rfl

theorem copyAndUpsert_changedFiles (acc : BackupRun) (f : SrcFile) (h : HChunk) :
    (copyAndUpsert acc f h).1.changedFiles = acc.changedFiles := by
  simp only [copyAndUpsert]
  split <;> rfl

theorem copyAndUpsert_deletedFiles (acc : BackupRun) (f : SrcFile) (h : HChunk) :
    (copyAndUpsert acc f h).1.deletedFiles = acc.deletedFiles := by
  simp only [copyAndUpsert]
  split <;> rfl

theorem copyAndUpsert_store_cases (acc : BackupRun) (f : SrcFile) (h : HChunk) :
    (copyAndUpsert acc f h).1.store = acc.store ∨
    ∃ store', update_or_create_current acc.store f h = .ok store' ∧
      (copyAndUpsert acc f h).1.store = store' := by
  simp only [copyAndUpsert]
  split
  · rename_i store' heq
    right
    exact ⟨store', heq, rfl⟩
  · left
    rfl

theorem copyAndUpsert_ok_store (acc : BackupRun) (f : SrcFile) (h : HChunk)
    (hok : (copyAndUpsert acc f h).2 = none) :
    ∃ store', update_or_create_current acc.store f h = .ok store' ∧
      (copyAndUpsert acc f h).1.store = store' := by
  simp only [copyAndUpsert] at hok ⊢
  split at hok
  · rename_i store' heq
    rw [heq]
    exact ⟨store', rfl, rfl⟩
  · simp at hok

theorem backupStep_unreadable (base : List (String × Option HChunk × PyDatetime))
    (acc : BackupRun) (f : SrcFile) (hr : f.readable = false) :
    backupStep base acc f = (acc, none) := by
  simp [backupStep, calculate_hash, hr]

/-- The three shapes of one walk iteration: an unreadable file is a no-op,
a classification `TypeError` leaves the state untouched, and otherwise the
iteration is a copy-and-upsert from a state whose copied/store/deleted
fields are untouched and whose new/changed lists have gained at most the
file's own path. -/
theorem backupStep_cases (base : List (String × Option HChunk × PyDatetime))
    (acc : BackupRun) (f : SrcFile) :
    (f.readable = false ∧ backupStep base acc f = (acc, none)) ∨
    (∃ e, backupStep base acc f = (acc, some e)) ∨
    (f.readable = true ∧ ∃ acc₁,
       backupStep base acc f = copyAndUpsert acc₁ f (.hfile f.content) ∧
       acc₁.copied = acc.copied ∧ acc₁.store = acc.store ∧
       acc₁.deletedFiles = acc.deletedFiles ∧
       (∀ x ∈ acc₁.newFiles, x ∈ acc.newFiles ∨ x = f.relPath) ∧
       (∀ x ∈ acc₁.changedFiles, x ∈ acc.changedFiles ∨ x = f.relPath)) := by
  cases hr : f.readable
  · exact Or.inl ⟨rfl, backupStep_unreadable base acc f hr⟩
  · have hh : calculate_hash f = some (.hfile f.content) := by
      simp [calculate_hash, hr]
    cases hfind : base.find? (fun kv => kv.1 == f.relPath) with
    | none =>
      have heq : backupStep base acc f =
          copyAndUpsert { acc with newFiles := acc.newFiles ++ [f.relPath] } f
            (.hfile f.content) := by
        simp only [backupStep, hh, hfind]
      right; right
      refine ⟨rfl, _, heq, rfl, rfl, rfl, ?_, fun x hx => Or.inl hx⟩
      intro x hx
      rcases List.mem_append.mp hx with h1 | h1
      · exact Or.inl h1
      · exact Or.inr (List.mem_singleton.mp h1)
    | some kv =>
      by_cases hdiff : hashDiffers (.hfile f.content) kv.2.1 = true
      · have heq : backupStep base acc f =
            copyAndUpsert { acc with changedFiles := acc.changedFiles ++ [f.relPath] } f
              (.hfile f.content) := by
          simp only [backupStep, hh, hfind]
          rw [if_pos hdiff]
        right; right
        refine ⟨rfl, _, heq, rfl, rfl, rfl, fun x hx => Or.inl hx, ?_⟩
        intro x hx
        rcases List.mem_append.mp hx with h1 | h1
        · exact Or.inl h1
        · exact Or.inr (List.mem_singleton.mp h1)
      · cases hdt : dtGt ⟨f.mtime, false⟩ kv.2.2 with
        | error e =>
          have heq : backupStep base acc f = (acc, some e) := by
            simp only [backupStep, hh, hfind]
            rw [if_neg hdiff, hdt]
          exact Or.inr (Or.inl ⟨e, heq⟩)
        | ok b =>
          cases b with
          | false =>
            have heq : backupStep base acc f = copyAndUpsert acc f (.hfile f.content) := by
              simp only [backupStep, hh, hfind]
              rw [if_neg hdiff, hdt]
            exact Or.inr (Or.inr ⟨rfl, acc, heq, rfl, rfl, rfl,
              fun x hx => Or.inl hx, fun x hx => Or.inl hx⟩)
          | true =>
            have heq : backupStep base acc f =
                copyAndUpsert { acc with changedFiles := acc.changedFiles ++ [f.relPath] } f
                  (.hfile f.content) := by
              simp only [backupStep, hh, hfind]
              rw [if_neg hdiff, hdt]
            right; right
            refine ⟨rfl, _, heq, rfl, rfl, rfl, fun x hx => Or.inl hx, ?_⟩
            intro x hx
            rcases List.mem_append.mp hx with h1 | h1
            · exact Or.inl h1
            · exact Or.inr (List.mem_singleton.mp h1)

theorem backupStep_deletedFiles (base : List (String × Option HChunk × PyDatetime))
    (acc : BackupRun) (f : SrcFile) :
    (backupStep base acc f).1.deletedFiles = acc.deletedFiles := by
  rcases backupStep_cases base acc f with ⟨_, heq⟩ | ⟨e, heq⟩ | ⟨_, acc₁, heq, _, _, hd, _, _⟩
  · rw [heq]
  · rw [heq]
  · rw [heq, copyAndUpsert_deletedFiles, hd]

theorem backupStep_copied_mem (base : List (String × Option HChunk × PyDatetime))
    (acc : BackupRun) (f : SrcFile) (x : String × List Nat)
    (hx : x ∈ (backupStep base acc f).1.copied) :
    x ∈ acc.copied ∨ (f.readable = true ∧ x = (f.relPath, f.content)) := by
  rcases backupStep_cases base acc f with ⟨_, heq⟩ | ⟨e, heq⟩ | ⟨hr, acc₁, heq, hc, _, _, _, _⟩
  · rw [heq] at hx
    exact Or.inl hx
  · rw [heq] at hx
    exact Or.inl hx
  · rw [heq, copyAndUpsert_copied, hc] at hx
    rcases List.mem_append.mp hx with h1 | h1
    · exact Or.inl h1
    · exact Or.inr ⟨hr, List.mem_singleton.mp h1⟩

theorem backupStep_new_mem (base : List (String × Option HChunk × PyDatetime))
    (acc : BackupRun) (f : SrcFile) (x : String)
    (hx : x ∈ (backupStep base acc f).1.newFiles) :
    x ∈ acc.newFiles ∨ (f.readable = true ∧ x = f.relPath) := by
  rcases backupStep_cases base acc f with ⟨_, heq⟩ | ⟨e, heq⟩ | ⟨hr, acc₁, heq, _, _, _, hnew, _⟩
  · rw [heq] at hx
    exact Or.inl hx
  · rw [heq] at hx
    exact Or.inl hx
  · rw [heq, copyAndUpsert_newFiles] at hx
    rcases hnew x hx with h1 | h1
    · exact Or.inl h1
    · exact Or.inr ⟨hr, h1⟩

theorem backupStep_changed_mem (base : List (String × Option HChunk × PyDatetime))
    (acc : BackupRun) (f : SrcFile) (x : String)
    (hx : x ∈ (backupStep base acc f).1.changedFiles) :
    x ∈ acc.changedFiles ∨ (f.readable = true ∧ x = f.relPath) := by
  rcases backupStep_cases base acc f with ⟨_, heq⟩ | ⟨e, heq⟩ | ⟨hr, acc₁, heq, _, _, _, _, hch⟩
  · rw [heq] at hx
    exact Or.inl hx
  · rw [heq] at hx
    exact Or.inl hx
  · rw [heq, copyAndUpsert_changedFiles] at hx
    rcases hch x hx with h1 | h1
    · exact Or.inl h1
    · exact Or.inr ⟨hr, h1⟩

theorem backupStep_ok_copied (base : List (String × Option HChunk × PyDatetime))
    (acc : BackupRun) (f : SrcFile)
    (hok : (backupStep base acc f).2 = none) :
    (backupStep base acc f).1.copied =
      acc.copied ++ (if f.readable = true then [(f.relPath, f.content)] else []) := by
  rcases backupStep_cases base acc f with ⟨hr, heq⟩ | ⟨e, heq⟩ | ⟨hr, acc₁, heq, hc, _, _, _, _⟩
  · rw [heq, hr]
    simp
  · rw [heq] at hok
    simp at hok
  · rw [heq, copyAndUpsert_copied, hc, hr]
    simp

theorem filter_map_update_ne (store : List Entry) (q p : String)
    (upd : Entry → Entry) (hupd : ∀ e, (upd e).itemPath = e.itemPath)
    (hne : q ≠ p) :
    List.filter (fun e => e.itemPath == p)
      (store.map (fun e => if (e.itemPath == q) = true then upd e else e)) =
    List.filter (fun e => e.itemPath == p) store := by
  induction store with
  | nil => rfl
  | cons e rest ih =>
    rw [List.map_cons, List.filter_cons, List.filter_cons]
    by_cases hq : e.itemPath = q
    · have h1 : (e.itemPath == q) = true := beq_iff_eq.mpr hq
      have h2 : (e.itemPath == p) = false :=
        beq_eq_false_iff_ne.mpr (fun hc => hne (hq ▸ hc))
      have h3 : ((upd e).itemPath == p) = false := by rw [hupd e]; exact h2
      rw [if_pos h1, h2, h3]
      exact ih
    · have h1 : (e.itemPath == q) = false := beq_eq_false_iff_ne.mpr hq
      rw [h1]
      simp only [Bool.false_eq_true, if_false]
      cases h2 : (e.itemPath == p)
      · exact ih
      · rw [ih]

theorem uoc_ok_establishes (store : List Entry) (f : SrcFile) (h : HChunk)
    (store' : List Entry)
    (huoc : update_or_create_current store f h = .ok store') :
    ∃ e ∈ store', e.itemPath = f.relPath ∧ e.status = "current" := by
  simp only [update_or_create_current] at huoc
  split at huoc
  · injection huoc with h1
    rw [← h1]
    refine ⟨⟨f.relPath, some h, f.mtime, "current", "file"⟩, ?_, rfl, rfl⟩
    exact List.mem_append.mpr (Or.inr (List.mem_singleton.mpr rfl))
  · split at huoc
    · injection huoc with h1
      rename_i hne0 heq1
      have hpos : 0 < (store.filter (fun e => e.itemPath == f.relPath)).length := by
        omega
      obtain ⟨e, he⟩ := List.exists_mem_of_ne_nil _ (List.length_pos.mp hpos)
      have hee := (List.mem_filter.mp he).2
      have hes := (List.mem_filter.mp he).1
      rw [← h1]
      refine ⟨_, List.mem_map.mpr ⟨e, hes, rfl⟩, ?_, ?_⟩
      · rw [if_pos hee]
        simpa using hee
      · rw [if_pos hee]
    · exact Except.noConfusion huoc

theorem uoc_frame (store : List Entry) (f : SrcFile) (h : HChunk)
    (store' : List Entry) (p : String)
    (huoc : update_or_create_current store f h = .ok store')
    (hne : f.relPath ≠ p) :
    entriesAt store' p = entriesAt store p := by
  simp only [update_or_create_current] at huoc
  split at huoc
  · injection huoc with h1
    rw [← h1]
    unfold entriesAt
    rw [List.filter_append]
    have hnil : List.filter (fun e => e.itemPath == p)
        [(⟨f.relPath, some h, f.mtime, "current", "file"⟩ : Entry)] = [] := by
      rw [List.filter_cons]
      have : ((⟨f.relPath, some h, f.mtime, "current", "file"⟩ : Entry).itemPath
          == p) = false := beq_eq_false_iff_ne.mpr hne
      rw [this]
      rfl
    rw [hnil, List.append_nil]
  · split at huoc
    · injection huoc with h1
      rw [← h1]
      unfold entriesAt
      exact filter_map_update_ne store f.relPath p _ (fun e => rfl) hne
    · exact Except.noConfusion huoc

theorem uoc_preserves_current (store : List Entry) (g : SrcFile) (h : HChunk)
    (store' : List Entry) (p : String)
    (huoc : update_or_create_current store g h = .ok store')
    (hp : ∃ e ∈ store, e.itemPath = p ∧ e.status = "current") :
    ∃ e ∈ store', e.itemPath = p ∧ e.status = "current" := by
  by_cases hq : g.relPath = p
  · obtain ⟨e, he, hep, hes⟩ := uoc_ok_establishes store g h store' huoc
    exact ⟨e, he, by rw [hep, hq], hes⟩
  · obtain ⟨e, he, hep, hes⟩ := hp
    have hmem : e ∈ entriesAt store p := List.mem_filter.mpr ⟨he, by simp [hep]⟩
    rw [← uoc_frame store g h store' p huoc hq] at hmem
    exact ⟨e, (List.mem_filter.mp hmem).1, hep, hes⟩

theorem backupStep_store_frame (base : List (String × Option HChunk × PyDatetime))
    (acc : BackupRun) (f : SrcFile) (p : String)
    (hfp : f.readable = true → f.relPath ≠ p) :
    entriesAt (backupStep base acc f).1.store p = entriesAt acc.store p := by
  rcases backupStep_cases base acc f with ⟨_, heq⟩ | ⟨e, heq⟩ | ⟨hr, acc₁, heq, _, hst, _, _, _⟩
  · rw [heq]
  · rw [heq]
  · rw [heq]
    rcases copyAndUpsert_store_cases acc₁ f (.hfile f.content) with hsame | ⟨store', huoc, hsto⟩
    · rw [hsame, hst]
    · rw [hsto, uoc_frame acc₁.store f (.hfile f.content) store' p huoc (hfp hr), hst]

theorem backupStep_ok_current (base : List (String × Option HChunk × PyDatetime))
    (acc : BackupRun) (f : SrcFile)
    (hok : (backupStep base acc f).2 = none) (hr : f.readable = true) :
    ∃ e ∈ (backupStep base acc f).1.store,
      e.itemPath = f.relPath ∧ e.status = "current" := by
  rcases backupStep_cases base acc f with ⟨hr', _⟩ | ⟨e, heq⟩ | ⟨_, acc₁, heq, _, _, _, _, _⟩
  · rw [hr] at hr'
    exact Bool.noConfusion hr'
  · rw [heq] at hok
    simp at hok
  · rw [heq] at hok ⊢
    obtain ⟨store', huoc, hsto⟩ := copyAndUpsert_ok_store acc₁ f (.hfile f.content) hok
    rw [hsto]
    exact uoc_ok_establishes acc₁.store f (.hfile f.content) store' huoc

theorem backupStep_preserves_current (base : List (String × Option HChunk × PyDatetime))
    (acc : BackupRun) (f : SrcFile) (p : String)
    (hp : ∃ e ∈ acc.store, e.itemPath = p ∧ e.status = "current") :
    ∃ e ∈ (backupStep base acc f).1.store, e.itemPath = p ∧ e.status = "current" := by
  rcases backupStep_cases base acc f with ⟨_, heq⟩ | ⟨e, heq⟩ | ⟨hr, acc₁, heq, _, hst, _, _, _⟩
  · rw [heq]
    exact hp
  · rw [heq]
    exact hp
  · rw [heq]
    rcases copyAndUpsert_store_cases acc₁ f (.hfile f.content) with hsame | ⟨store', huoc, hsto⟩
    · rw [hsame, hst]
      exact hp
    · rw [hsto]
      refine uoc_preserves_current acc₁.store f (.hfile f.content) store' p huoc ?_
      rw [hst]
      exact hp

theorem walkFiles_nil (base : List (String × Option HChunk × PyDatetime))
    (acc : BackupRun) : walkFiles base [] acc = (acc, none) := rfl

theorem walkFiles_cons (base : List (String × Option HChunk × PyDatetime))
    (f : SrcFile) (rest : List SrcFile) (acc : BackupRun) :
    walkFiles base (f :: rest) acc =
      match backupStep base acc f with
      | (acc', none) => walkFiles base rest acc'
      | (acc', some e) => (acc', some e) := rfl

theorem walkFiles_cons_ok (base : List (String × Option HChunk × PyDatetime))
    (f : SrcFile) (rest : List SrcFile) (acc acc' : BackupRun)
    (hstep : backupStep base acc f = (acc', none)) :
    walkFiles base (f :: rest) acc = walkFiles base rest acc' := by
  rw [walkFiles_cons, hstep]

theorem walkFiles_cons_err (base : List (String × Option HChunk × PyDatetime))
    (f : SrcFile) (rest : List SrcFile) (acc acc' : BackupRun) (e : String)
    (hstep : backupStep base acc f = (acc', some e)) :
    walkFiles base (f :: rest) acc = (acc', some e) := by
  rw [walkFiles_cons, hstep]

theorem walkFiles_deletedFiles (base : List (String × Option HChunk × PyDatetime))
    (fs : List SrcFile) :
    ∀ acc : BackupRun, (walkFiles base fs acc).1.deletedFiles = acc.deletedFiles := by
  induction fs with
  | nil =>
    intro acc
    rfl
  | cons f rest ih =>
    intro acc
    rcases hstep : backupStep base acc f with ⟨acc', err⟩
    have hd : acc'.deletedFiles = acc.deletedFiles := by
      have h2 := backupStep_deletedFiles base acc f
      rw [hstep] at h2
      exact h2
    cases err with
    | none =>
      rw [walkFiles_cons_ok base f rest acc acc' hstep, ih acc', hd]
    | some e =>
      rw [walkFiles_cons_err base f rest acc acc' e hstep]
      exact hd

theorem walkFiles_copied_mem (base : List (String × Option HChunk × PyDatetime))
    (fs : List SrcFile) :
    ∀ (acc : BackupRun) (x : String × List Nat),
      x ∈ (walkFiles base fs acc).1.copied →
      x ∈ acc.copied ∨ ∃ f ∈ fs, f.readable = true ∧ x = (f.relPath, f.content) := by
  induction fs with
  | nil =>
    intro acc x hx
    exact Or.inl hx
  | cons f rest ih =>
    intro acc x hx
    rcases hstep : backupStep base acc f with ⟨acc', err⟩
    have hmono : x ∈ acc'.copied →
        x ∈ acc.copied ∨ ∃ g ∈ f :: rest, g.readable = true ∧ x = (g.relPath, g.content) := by
      intro hx'
      have hx'' : x ∈ (backupStep base acc f).1.copied := by
        rw [hstep]
        exact hx'
      rcases backupStep_copied_mem base acc f x hx'' with h1 | ⟨hr, hxe⟩
      · exact Or.inl h1
      · exact Or.inr ⟨f, List.mem_cons_self f rest, hr, hxe⟩
    cases err with
    | none =>
      rw [walkFiles_cons_ok base f rest acc acc' hstep] at hx
      rcases ih acc' x hx with h1 | ⟨g, hg, hgr, hgx⟩
      · exact hmono h1
      · exact Or.inr ⟨g, List.mem_cons_of_mem f hg, hgr, hgx⟩
    | some e =>
      rw [walkFiles_cons_err base f rest acc acc' e hstep] at hx
      exact hmono hx

theorem walkFiles_new_mem (base : List (String × Option HChunk × PyDatetime))
    (fs : List SrcFile) :
    ∀ (acc : BackupRun) (x : String),
      x ∈ (walkFiles base fs acc).1.newFiles →
      x ∈ acc.newFiles ∨ ∃ f ∈ fs, f.readable = true ∧ f.relPath = x := by
  induction fs with
  | nil =>
    intro acc x hx
    exact Or.inl hx
  | cons f rest ih =>
    intro acc x hx
    rcases hstep : backupStep base acc f with ⟨acc', err⟩
    have hmono : x ∈ acc'.newFiles →
        x ∈ acc.newFiles ∨ ∃ g ∈ f :: rest, g.readable = true ∧ g.relPath = x := by
      intro hx'
      have hx'' : x ∈ (backupStep base acc f).1.newFiles := by
        rw [hstep]
        exact hx'
      rcases backupStep_new_mem base acc f x hx'' with h1 | ⟨hr, hxe⟩
      · exact Or.inl h1
      · exact Or.inr ⟨f, List.mem_cons_self f rest, hr, hxe.symm⟩
    cases err with
    | none =>
      rw [walkFiles_cons_ok base f rest acc acc' hstep] at hx
      rcases ih acc' x hx with h1 | ⟨g, hg, hgr, hgx⟩
      · exact hmono h1
      · exact Or.inr ⟨g, List.mem_cons_of_mem f hg, hgr, hgx⟩
    | some e =>
      rw [walkFiles_cons_err base f rest acc acc' e hstep] at hx
      exact hmono hx

theorem walkFiles_changed_mem (base : List (String × Option HChunk × PyDatetime))
    (fs : List SrcFile) :
    ∀ (acc : BackupRun) (x : String),
      x ∈ (walkFiles base fs acc).1.changedFiles →
      x ∈ acc.changedFiles ∨ ∃ f ∈ fs, f.readable = true ∧ f.relPath = x := by
  induction fs with
  | nil =>
    intro acc x hx
    exact Or.inl hx
  | cons f rest ih =>
    intro acc x hx
    rcases hstep : backupStep base acc f with ⟨acc', err⟩
    have hmono : x ∈ acc'.changedFiles →
        x ∈ acc.changedFiles ∨ ∃ g ∈ f :: rest, g.readable = true ∧ g.relPath = x := by
      intro hx'
      have hx'' : x ∈ (backupStep base acc f).1.changedFiles := by
        rw [hstep]
        exact hx'
      rcases backupStep_changed_mem base acc f x hx'' with h1 | ⟨hr, hxe⟩
      · exact Or.inl h1
      · exact Or.inr ⟨f, List.mem_cons_self f rest, hr, hxe.symm⟩
    cases err with
    | none =>
      rw [walkFiles_cons_ok base f rest acc acc' hstep] at hx
      rcases ih acc' x hx with h1 | ⟨g, hg, hgr, hgx⟩
      · exact hmono h1
      · exact Or.inr ⟨g, List.mem_cons_of_mem f hg, hgr, hgx⟩
    | some e =>
      rw [walkFiles_cons_err base f rest acc acc' e hstep] at hx
      exact hmono hx

theorem walkFiles_store_frame (base : List (String × Option HChunk × PyDatetime))
    (fs : List SrcFile) :
    ∀ (acc : BackupRun) (p : String),
      (∀ f ∈ fs, f.readable = true → f.relPath ≠ p) →
      entriesAt (walkFiles base fs acc).1.store p = entriesAt acc.store p := by
  induction fs with
  | nil =>
    intro acc p _
    rfl
  | cons f rest ih =>
    intro acc p hp
    rcases hstep : backupStep base acc f with ⟨acc', err⟩
    have hframe : entriesAt acc'.store p = entriesAt acc.store p := by
      have h2 := backupStep_store_frame base acc f p (hp f (List.mem_cons_self f rest))
      rw [hstep] at h2
      exact h2
    cases err with
    | none =>
      rw [walkFiles_cons_ok base f rest acc acc' hstep,
        ih acc' p (fun g hg => hp g (List.mem_cons_of_mem f hg)), hframe]
    | some e =>
      rw [walkFiles_cons_err base f rest acc acc' e hstep]
      exact hframe

theorem walkFiles_ok_copied (base : List (String × Option HChunk × PyDatetime))
    (fs : List SrcFile) :
    ∀ acc : BackupRun, (walkFiles base fs acc).2 = none →
      (walkFiles base fs acc).1.copied =
        acc.copied ++ (fs.filter (fun f => f.readable)).map
          (fun f => (f.relPath, f.content)) := by
  induction fs with
  | nil =>
    intro acc _
    rw [walkFiles_nil]
    simp
  | cons f rest ih =>
    intro acc hok
    rcases hstep : backupStep base acc f with ⟨acc', err⟩
    cases err with
    | some e =>
      rw [walkFiles_cons_err base f rest acc acc' e hstep] at hok
      simp at hok
    | none =>
      rw [walkFiles_cons_ok base f rest acc acc' hstep] at hok ⊢
      rw [ih acc' hok]
      have hc : acc'.copied = acc.copied ++
          (if f.readable = true then [(f.relPath, f.content)] else []) := by
        have h2 := backupStep_ok_copied base acc f (by rw [hstep])
        rw [hstep] at h2
        exact h2
      rw [hc, List.filter_cons]
      cases hr : f.readable <;> simp [hr]

theorem walkFiles_preserves_current (base : List (String × Option HChunk × PyDatetime))
    (fs : List SrcFile) :
    ∀ (acc : BackupRun) (p : String),
      (∃ e ∈ acc.store, e.itemPath = p ∧ e.status = "current") →
      ∃ e ∈ (walkFiles base fs acc).1.store,
        e.itemPath = p ∧ e.status = "current" := by
  induction fs with
  | nil =>
    intro acc p hp
    exact hp
  | cons f rest ih =>
    intro acc p hp
    rcases hstep : backupStep base acc f with ⟨acc', err⟩
    have hp' : ∃ e ∈ acc'.store, e.itemPath = p ∧ e.status = "current" := by
      have h2 := backupStep_preserves_current base acc f p hp
      rw [hstep] at h2
      exact h2
    cases err with
    | none =>
      rw [walkFiles_cons_ok base f rest acc acc' hstep]
      exact ih acc' p hp'
    | some e =>
      rw [walkFiles_cons_err base f rest acc acc' e hstep]
      exact hp'

theorem walkFiles_ok_current (base : List (String × Option HChunk × PyDatetime))
    (fs : List SrcFile) :
    ∀ (acc : BackupRun) (f : SrcFile),
      (walkFiles base fs acc).2 = none → f ∈ fs → f.readable = true →
      ∃ e ∈ (walkFiles base fs acc).1.store,
        e.itemPath = f.relPath ∧ e.status = "current" := by
  induction fs with
  | nil =>
    intro acc f _ hf _
    simp at hf
  | cons g rest ih =>
    intro acc f hok hf hr
    rcases hstep : backupStep base acc g with ⟨acc', err⟩
    cases err with
    | some e =>
      rw [walkFiles_cons_err base g rest acc acc' e hstep] at hok
      simp at hok
    | none =>
      rw [walkFiles_cons_ok base g rest acc acc' hstep] at hok ⊢
      rcases List.mem_cons.mp hf with rfl | hmem
      · have hcur : ∃ e ∈ acc'.store, e.itemPath = f.relPath ∧ e.status = "current" := by
          have h2 := backupStep_ok_current base acc f (by rw [hstep]) hr
          rw [hstep] at h2
          exact h2
        exact walkFiles_preserves_current base rest acc' f.relPath hcur
      · exact ih acc' f hok hmem hr

theorem create_backup_eq_ok (fs : List SrcFile) (st : List Entry) (acc : BackupRun)
    (hw : walkFiles (baselineDictOf st) fs ⟨[], st, [], [], []⟩ = (acc, none)) :
    create_backup fs st =
      ⟨{ acc with
          deletedFiles := ((baselineDictOf st).map (·.1)).filter (fun p => !((fs.map (·.relPath)).contains p)) },
        false⟩ := by
  simp only [create_backup]
  rw [hw]

theorem create_backup_eq_err (fs : List SrcFile) (st : List Entry) (acc : BackupRun)
    (e : String)
    (hw : walkFiles (baselineDictOf st) fs ⟨[], st, [], [], []⟩ = (acc, some e)) :
    create_backup fs st = ⟨acc, true⟩ := by
  simp only [create_backup]
  rw [hw]

theorem create_backup_run_copied (fs : List SrcFile) (st : List Entry) :
    (create_backup fs st).run.copied =
      (walkFiles (baselineDictOf st) fs ⟨[], st, [], [], []⟩).1.copied := by
  rcases hw : walkFiles (baselineDictOf st) fs ⟨[], st, [], [], []⟩ with ⟨acc, err⟩
  cases err with
  | none => rw [create_backup_eq_ok fs st acc hw]
  | some e => rw [create_backup_eq_err fs st acc e hw]

theorem create_backup_run_store (fs : List SrcFile) (st : List Entry) :
    (create_backup fs st).run.store =
      (walkFiles (baselineDictOf st) fs ⟨[], st, [], [], []⟩).1.store := by
  rcases hw : walkFiles (baselineDictOf st) fs ⟨[], st, [], [], []⟩ with ⟨acc, err⟩
  cases err with
  | none => rw [create_backup_eq_ok fs st acc hw]
  | some e => rw [create_backup_eq_err fs st acc e hw]

theorem create_backup_run_newFiles (fs : List SrcFile) (st : List Entry) :
    (create_backup fs st).run.newFiles =
      (walkFiles (baselineDictOf st) fs ⟨[], st, [], [], []⟩).1.newFiles := by
  rcases hw : walkFiles (baselineDictOf st) fs ⟨[], st, [], [], []⟩ with ⟨acc, err⟩
  cases err with
  | none => rw [create_backup_eq_ok fs st acc hw]
  | some e => rw [create_backup_eq_err fs st acc e hw]

theorem create_backup_run_changedFiles (fs : List SrcFile) (st : List Entry) :
    (create_backup fs st).run.changedFiles =
      (walkFiles (baselineDictOf st) fs ⟨[], st, [], [], []⟩).1.changedFiles := by
  rcases hw : walkFiles (baselineDictOf st) fs ⟨[], st, [], [], []⟩ with ⟨acc, err⟩
  cases err with
  | none => rw [create_backup_eq_ok fs st acc hw]
  | some e => rw [create_backup_eq_err fs st acc e hw]

theorem create_backup_ok_iff (fs : List SrcFile) (st : List Entry) :
    (create_backup fs st).failed = false ↔
      (walkFiles (baselineDictOf st) fs ⟨[], st, [], [], []⟩).2 = none := by
  rcases hw : walkFiles (baselineDictOf st) fs ⟨[], st, [], [], []⟩ with ⟨acc, err⟩
  cases err with
  | none =>
    rw [create_backup_eq_ok fs st acc hw]
    simp
  | some e =>
    rw [create_backup_eq_err fs st acc e hw]
    simp

theorem create_backup_ok_deleted (fs : List SrcFile) (st : List Entry)
    (hok : (create_backup fs st).failed = false) :
    (create_backup fs st).run.deletedFiles =
      ((baselineDictOf st).map (·.1)).filter
        (fun p => !((fs.map (·.relPath)).contains p)) := by
  rcases hw : walkFiles (baselineDictOf st) fs ⟨[], st, [], [], []⟩ with ⟨acc, err⟩
  cases err with
  | none => rw [create_backup_eq_ok fs st acc hw]
  | some e =>
    rw [create_backup_eq_err fs st acc e hw] at hok
    simp at hok

theorem deletedFormula_char (fs : List SrcFile) (store₀ : List Entry) (p : String) :
    p ∈ ((baselineDictOf store₀).map (·.1)).filter
        (fun q => !((fs.map (·.relPath)).contains q)) ↔
      ((∃ e ∈ store₀, e.itemPath = p ∧ e.status = "current") ∧
       p ∉ fs.map (·.relPath)) := by
  rw [List.mem_filter]
  constructor
  · rintro ⟨hmem, hpred⟩
    obtain ⟨kv, hkv, hkvp⟩ := List.mem_map.mp hmem
    obtain ⟨e, he, hee⟩ := List.mem_map.mp hkv
    refine ⟨⟨e, (List.mem_filter.mp he).1, ?_, ?_⟩, ?_⟩
    · rw [← hkvp, ← hee]
    · have h2 := (List.mem_filter.mp he).2
      simpa using h2
    · intro hmem2
      have hcont : (fs.map (fun x => x.relPath)).contains p = true := by
        rw [List.contains_eq_any_beq]
        exact List.any_eq_true.mpr ⟨p, hmem2, beq_self_eq_true p⟩
      rw [hcont] at hpred
      simp at hpred
  · rintro ⟨⟨e, he, hep, hes⟩, hnot⟩
    constructor
    · exact List.mem_map.mpr ⟨(e.itemPath, e.hash, ⟨e.lastModified, true⟩),
        List.mem_map.mpr ⟨e, List.mem_filter.mpr ⟨he, by simp [hes]⟩, rfl⟩, hep⟩
    · have hcont : (fs.map (fun x => x.relPath)).contains p = false := by
        rw [List.contains_eq_any_beq, List.any_eq_false]
        intro x hx hpx
        exact hnot (by rw [beq_iff_eq.mp hpx]; exact hx)
      rw [hcont]
      rfl

/-! ## Remaining backup claims -/

/-- **C9, counterexample** — the conjunct "the backup of the remaining files
proceeds" is false at a concrete run: after skipping the unreadable
`bad.txt`, the walk aborts at `same.txt` — its stored digest equals the
computed one, so the code evaluates the mtime comparison, a naive
`datetime.fromtimestamp` against the aware ORM value under `USE_TZ = True`,
and raises `TypeError` — and the readable `ok.txt` that remains is never
copied; the whole run fails with no backup id. -/
theorem unreadable_skip_walk_aborts :
    (create_backup
        [⟨"bad.txt", [1], false, 0⟩, ⟨"same.txt", [7], true, 9⟩, ⟨"ok.txt", [2], true, 0⟩]
        [⟨"same.txt", some (.hfile [7]), 5, "current", "file"⟩]).failed = true ∧
    "bad.txt" ∉ (create_backup
        [⟨"bad.txt", [1], false, 0⟩, ⟨"same.txt", [7], true, 9⟩, ⟨"ok.txt", [2], true, 0⟩]
        [⟨"same.txt", some (.hfile [7]), 5, "current", "file"⟩]).run.copied.map (·.1) ∧
    (⟨"ok.txt", [2], true, 0⟩ : SrcFile).readable = true ∧
    "ok.txt" ∉ (create_backup
        [⟨"bad.txt", [1], false, 0⟩, ⟨"same.txt", [7], true, 9⟩, ⟨"ok.txt", [2], true, 0⟩]
        [⟨"same.txt", some (.hfile [7]), 5, "current", "file"⟩]).run.copied.map (·.1) := by
  decide

/-- **C9, amended** — a file whose digest computation fails is skipped
entirely for the run: the walk iteration leaves the run state untouched and
continues (the skipped file alone never raises), the file is not copied,
not counted among the new or changed files, and its baseline rows are not
updated; and whenever the run completes without an exception, every
readable file of the walk is copied.  A run may still abort at another file
(stored digest equal to the computed one → naive/aware `TypeError`, or more
than one row at the path → `MultipleObjectsReturned`), and then the files
after the aborting one are not backed up. -/
theorem unreadable_file_skipped (fs : List SrcFile) (store₀ : List Entry)
    (f : SrcFile) (hf : f ∈ fs) (hunread : f.readable = false)
    (hnodup : (fs.map (·.relPath)).Nodup) :
    (∀ (base : List (String × Option HChunk × PyDatetime)) (acc : BackupRun),
       backupStep base acc f = (acc, none)) ∧
    f.relPath ∉ (create_backup fs store₀).run.copied.map (·.1) ∧
    f.relPath ∉ (create_backup fs store₀).run.newFiles ∧
    f.relPath ∉ (create_backup fs store₀).run.changedFiles ∧
    entriesAt (create_backup fs store₀).run.store f.relPath =
      entriesAt store₀ f.relPath ∧
    ((create_backup fs store₀).failed = false →
      ∀ g ∈ fs, g.readable = true →
        g.relPath ∈ (create_backup fs store₀).run.copied.map (·.1)) := by
  have hkey : ∀ g ∈ fs, g.readable = true → g.relPath ≠ f.relPath := by
    intro g hg hgr heq
    have hgf : g = f := List.inj_on_of_nodup_map hnodup hg hf heq
    rw [hgf, hunread] at hgr
    exact Bool.noConfusion hgr
  refine ⟨fun base acc => backupStep_unreadable base acc f hunread, ?_, ?_, ?_, ?_, ?_⟩
  · rw [create_backup_run_copied]
    intro hmem
    obtain ⟨x, hx, hxp⟩ := List.mem_map.mp hmem
    rcases walkFiles_copied_mem (baselineDictOf store₀) fs _ x hx with h0 | ⟨g, hg, hgr, hgx⟩
    · simp at h0
    · rw [hgx] at hxp
      exact hkey g hg hgr hxp
  · rw [create_backup_run_newFiles]
    intro hmem
    rcases walkFiles_new_mem (baselineDictOf store₀) fs _ _ hmem with h0 | ⟨g, hg, hgr, hgx⟩
    · simp at h0
    · exact hkey g hg hgr hgx
  · rw [create_backup_run_changedFiles]
    intro hmem
    rcases walkFiles_changed_mem (baselineDictOf store₀) fs _ _ hmem with h0 | ⟨g, hg, hgr, hgx⟩
    · simp at h0
    · exact hkey g hg hgr hgx
  · rw [create_backup_run_store]
    exact walkFiles_store_frame (baselineDictOf store₀) fs _ f.relPath hkey
  · intro hok g hg hgr
    rw [create_backup_run_copied,
      walkFiles_ok_copied (baselineDictOf store₀) fs _
        ((create_backup_ok_iff fs store₀).mp hok)]
    refine List.mem_map.mpr ⟨(g.relPath, g.content), ?_, rfl⟩
    refine List.mem_append.mpr (Or.inr ?_)
    exact List.mem_map.mpr ⟨g, List.mem_filter.mpr ⟨hg, by simp [hgr]⟩, rfl⟩

/-- Witness for `unreadable_file_skipped` at a concrete input: a run over an
unreadable `bad.txt` and a readable `ok.txt`. -/
theorem unreadable_file_skipped_witness :
    ((⟨"bad.txt", [1], false, 0⟩ : SrcFile) ∈
      [(⟨"bad.txt", [1], false, 0⟩ : SrcFile), ⟨"ok.txt", [2], true, 0⟩]) ∧
    (⟨"bad.txt", [1], false, 0⟩ : SrcFile).readable = false ∧
    (([(⟨"bad.txt", [1], false, 0⟩ : SrcFile), ⟨"ok.txt", [2], true, 0⟩].map
        (·.relPath)).Nodup) ∧
    "bad.txt" ∉ (create_backup [⟨"bad.txt", [1], false, 0⟩, ⟨"ok.txt", [2], true, 0⟩]
        []).run.copied.map (·.1) :=
  ⟨by decide, rfl, by decide,
   (unreadable_file_skipped [⟨"bad.txt", [1], false, 0⟩, ⟨"ok.txt", [2], true, 0⟩] []
     ⟨"bad.txt", [1], false, 0⟩ (by decide) rfl (by decide)).2.1⟩

/-- **C3, amended** — `create_backup` does write the Baseline Store, but only
inside its footprint: rows at paths for which no digest was computed are
unchanged — even when the run aborts mid-walk with `TypeError` or
`MultipleObjectsReturned`, since the rows already upserted stay committed —
and no row is ever deleted; and whenever the run completes without an
exception, every readable file of the walk ends with a `status='current'`
row. -/
theorem backup_store_footprint (fs : List SrcFile) (store₀ : List Entry) :
    (∀ p, p ∉ (fs.filter (fun f => f.readable)).map (·.relPath) →
       entriesAt (create_backup fs store₀).run.store p = entriesAt store₀ p) ∧
    ((create_backup fs store₀).failed = false →
      ∀ f ∈ fs, f.readable = true →
        ∃ e ∈ (create_backup fs store₀).run.store,
          e.itemPath = f.relPath ∧ e.status = "current") := by
  constructor
  · intro p hp
    have hstep : ∀ g ∈ fs, g.readable = true → g.relPath ≠ p := by
      intro g hg hgr heq
      exact hp (List.mem_map.mpr ⟨g, List.mem_filter.mpr ⟨hg, by simp [hgr]⟩, heq⟩)
    rw [create_backup_run_store]
    exact walkFiles_store_frame (baselineDictOf store₀) fs _ p hstep
  · intro hok f hf hr
    rw [create_backup_run_store]
    exact walkFiles_ok_current (baselineDictOf store₀) fs _ f
      ((create_backup_ok_iff fs store₀).mp hok) hf hr

/-- Witness for `backup_store_footprint` at a concrete input. -/
theorem backup_store_footprint_witness :
    ("other.txt" ∉ ([(⟨"a.txt", [120], true, 0⟩ : SrcFile)].filter
        (fun f => f.readable)).map (·.relPath)) ∧
    entriesAt (create_backup [⟨"a.txt", [120], true, 0⟩]
        [⟨"other.txt", none, 0, "current", "file"⟩]).run.store "other.txt" =
      entriesAt [⟨"other.txt", none, 0, "current", "file"⟩] "other.txt" ∧
    (create_backup [⟨"a.txt", [120], true, 0⟩]
        [⟨"other.txt", none, 0, "current", "file"⟩]).failed = false ∧
    ∃ e ∈ (create_backup [⟨"a.txt", [120], true, 0⟩]
        [⟨"other.txt", none, 0, "current", "file"⟩]).run.store,
      e.itemPath = "a.txt" ∧ e.status = "current" :=
  ⟨by decide,
   (backup_store_footprint [⟨"a.txt", [120], true, 0⟩]
       [⟨"other.txt", none, 0, "current", "file"⟩]).1 "other.txt" (by decide),
   by decide,
   (backup_store_footprint [⟨"a.txt", [120], true, 0⟩]
       [⟨"other.txt", none, 0, "current", "file"⟩]).2 (by decide)
     ⟨"a.txt", [120], true, 0⟩ (by decide) rfl⟩

/-- **C7** — the deleted-set claim fails on the code: with a baseline holding
current rows for `gone.txt` (absent on disk) and `a.txt` (stored digest
equal to the walked one), the run aborts with `TypeError` at `a.txt`'s
mtime comparison — naive `datetime.fromtimestamp` against the aware ORM
value under `USE_TZ = True` — before the deleted-files block is ever
reached, logs 'failed' and returns `None`: the deleted set, which the claim
says is exactly `{gone.txt}`, is never computed and nothing is reported.
On a run that completes without an exception, the reported deleted set is
exactly the set of current-row paths absent from the walk's file listing,
and no deleted path is copied. -/
theorem backup_deleted_set :
    ((create_backup [⟨"a.txt", [120], true, 9⟩]
        [⟨"gone.txt", some (.hfile [7]), 5, "current", "file"⟩,
         ⟨"a.txt", some (.hfile [120]), 5, "current", "file"⟩]).failed = true ∧
     (create_backup [⟨"a.txt", [120], true, 9⟩]
        [⟨"gone.txt", some (.hfile [7]), 5, "current", "file"⟩,
         ⟨"a.txt", some (.hfile [120]), 5, "current", "file"⟩]).run.deletedFiles = [] ∧
     (∃ e ∈ [(⟨"gone.txt", some (.hfile [7]), 5, "current", "file"⟩ : Entry),
             ⟨"a.txt", some (.hfile [120]), 5, "current", "file"⟩],
        e.itemPath = "gone.txt" ∧ e.status = "current") ∧
     "gone.txt" ∉ [(⟨"a.txt", [120], true, 9⟩ : SrcFile)].map (·.relPath)) ∧
    (∀ (fs : List SrcFile) (store₀ : List Entry),
       (create_backup fs store₀).failed = false →
       (∀ p, p ∈ (create_backup fs store₀).run.deletedFiles ↔
          ((∃ e ∈ store₀, e.itemPath = p ∧ e.status = "current") ∧
           p ∉ fs.map (·.relPath))) ∧
       ∀ p ∈ (create_backup fs store₀).run.deletedFiles,
         p ∉ (create_backup fs store₀).run.copied.map (·.1)) := by
  constructor
  · exact ⟨by decide, by decide, by decide, by decide⟩
  · intro fs store₀ hok
    have hchar : ∀ p, p ∈ (create_backup fs store₀).run.deletedFiles ↔
        ((∃ e ∈ store₀, e.itemPath = p ∧ e.status = "current") ∧
         p ∉ fs.map (·.relPath)) := by
      intro p
      rw [create_backup_ok_deleted fs store₀ hok]
      exact deletedFormula_char fs store₀ p
    refine ⟨hchar, ?_⟩
    intro p hp hmem
    have hnot := ((hchar p).mp hp).2
    rw [create_backup_run_copied] at hmem
    obtain ⟨x, hx, hxp⟩ := List.mem_map.mp hmem
    rcases walkFiles_copied_mem (baselineDictOf store₀) fs _ x hx with h0 | ⟨g, hg, hgr, hgx⟩
    · simp at h0
    · rw [hgx] at hxp
      exact hnot (List.mem_map.mpr ⟨g, hg, hxp⟩)

/-! ## Restore lemmas -/

theorem find?_overwrite_self (d : List (String × List Nat)) (p : String)
    (c : List Nat) (hany : d.any (fun kv => kv.1 == p) = true) :
    (d.map (fun kv => if (kv.1 == p) = true then (p, c) else kv)).find?
      (fun kv => kv.1 == p) = some (p, c) := by
  induction d with
  | nil => simp at hany
  | cons kv rest ih =>
    rw [List.map_cons, List.find?_cons]
    by_cases hk : kv.1 = p
    · have h1 : (kv.1 == p) = true := beq_iff_eq.mpr hk
      rw [if_pos h1]
      have h2 : ((p, c).1 == p) = true := beq_iff_eq.mpr rfl
      rw [h2]
    · have h1 : (kv.1 == p) = false := beq_eq_false_iff_ne.mpr hk
      have htail : rest.any (fun kv => kv.1 == p) = true := by
        rw [List.any_cons, h1] at hany
        simpa using hany
      rw [h1]
      simp only [Bool.false_eq_true, if_false]
      rw [h1]
      exact ih htail

theorem find?_overwrite_ne (d : List (String × List Nat)) (q p : String)
    (c : List Nat) (h : p ≠ q) :
    (d.map (fun kv => if (kv.1 == q) = true then (q, c) else kv)).find?
      (fun kv => kv.1 == p) = d.find? (fun kv => kv.1 == p) := by
  induction d with
  | nil => rfl
  | cons kv rest ih =>
    rw [List.map_cons, List.find?_cons, List.find?_cons]
    by_cases hk : kv.1 = q
    · have h1 : (kv.1 == q) = true := beq_iff_eq.mpr hk
      have h2 : (kv.1 == p) = false :=
        beq_eq_false_iff_ne.mpr (fun hc => h (hc.symm.trans hk))
      have h3 : ((q, c).1 == p) = false :=
        beq_eq_false_iff_ne.mpr (fun hc => h hc.symm)
      rw [if_pos h1, h2, h3]
      exact ih
    · have h1 : (kv.1 == q) = false := beq_eq_false_iff_ne.mpr hk
      rw [h1]
      simp only [Bool.false_eq_true, if_false]
      cases h2 : (kv.1 == p)
      · exact ih
      · rfl

theorem lookupFile_copyInto_self (d : List (String × List Nat)) (p : String)
    (c : List Nat) : lookupFile (copyInto d p c) p = some c := by
  unfold copyInto lookupFile
  split
  · rename_i hany
    rw [find?_overwrite_self d p c hany]
    rfl
  · rw [List.find?_append]
    rename_i hany
    have hnone : d.find? (fun kv => kv.1 == p) = none := by
      rw [List.find?_eq_none]
      intro kv hkv hpred
      rw [List.any_eq_true] at hany
      exact hany ⟨kv, hkv, hpred⟩
    rw [hnone]
    have h2 : ((p, c).1 == p) = true := beq_iff_eq.mpr rfl
    simp [List.find?_cons, h2]

theorem lookupFile_copyInto_ne (d : List (String × List Nat)) (q : String)
    (c : List Nat) (p : String) (h : p ≠ q) :
    lookupFile (copyInto d q c) p = lookupFile d p := by
  unfold copyInto lookupFile
  split
  · rw [find?_overwrite_ne d q p c h]
  · rw [List.find?_append]
    have hnil : List.find? (fun kv => kv.1 == p) [(q, c)] = none := by
      rw [List.find?_cons]
      have h3 : ((q, c).1 == p) = false :=
        beq_eq_false_iff_ne.mpr (fun hc => h hc.symm)
      rw [h3]
      rfl
    rw [hnil]
    cases d.find? (fun kv => kv.1 == p) <;> rfl

theorem lookupFile_restore_not_mem (l : List (String × List Nat)) :
    ∀ (d : List (String × List Nat)) (p : String), p ∉ l.map (·.1) →
      lookupFile (restore_backup l d) p = lookupFile d p := by
  induction l with
  | nil =>
    intro d p _
    rfl
  | cons kv rest ih =>
    intro d p h
    rw [restore_backup, List.foldl_cons]
    have hne : p ≠ kv.1 := by
      intro hc
      exact h (by simp [hc])
    have htail : p ∉ rest.map (·.1) := by
      intro hc
      exact h (by simp [hc])
    rw [show List.foldl (fun d pc => copyInto d pc.1 pc.2) (copyInto d kv.1 kv.2) rest
        = restore_backup rest (copyInto d kv.1 kv.2) from rfl]
    rw [ih _ p htail]
    exact lookupFile_copyInto_ne d kv.1 kv.2 p hne

theorem lookupFile_restore_mem (l : List (String × List Nat)) :
    ∀ (d : List (String × List Nat)) (p : String) (c : List Nat),
      (l.map (·.1)).Nodup → (p, c) ∈ l →
      lookupFile (restore_backup l d) p = some c := by
  induction l with
  | nil =>
    intro d p c _ hmem
    simp at hmem
  | cons kv rest ih =>
    intro d p c hnod hmem
    rw [restore_backup, List.foldl_cons]
    rw [show List.foldl (fun d pc => copyInto d pc.1 pc.2) (copyInto d kv.1 kv.2) rest
        = restore_backup rest (copyInto d kv.1 kv.2) from rfl]
    rcases List.mem_cons.mp hmem with rfl | hmem2
    · have hnot : p ∉ rest.map (·.1) := by
        rw [List.map_cons] at hnod
        exact (List.nodup_cons.mp hnod).1
      rw [lookupFile_restore_not_mem rest _ p hnot]
      exact lookupFile_copyInto_self d p c
    · have hnod' : (rest.map (·.1)).Nodup := by
        rw [List.map_cons] at hnod
        exact (List.nodup_cons.mp hnod).2
      exact ih _ p c hnod' hmem2

/-- **C1** — the round-trip claim fails on the code: with a single readable
file `a.txt` whose current baseline row already stores its digest — the
state right after a baseline scan or a successful backup — the
classification finds the hashes equal, so the code evaluates the mtime
comparison, a naive `datetime.fromtimestamp` against the aware ORM value
under `USE_TZ = True`, and raises `TypeError`; the run logs 'failed' and
returns `None`, so there is no backup id to restore, and nothing was
copied.  Whenever a run does complete without an exception, restoring its
backup location at any destination reproduces every readable file
byte-for-byte at its relative path. -/
theorem backup_restore_roundtrip :
    ((create_backup [⟨"a.txt", [120], true, 9⟩]
        [⟨"a.txt", some (.hfile [120]), 5, "current", "file"⟩]).failed = true ∧
     (create_backup [⟨"a.txt", [120], true, 9⟩]
        [⟨"a.txt", some (.hfile [120]), 5, "current", "file"⟩]).run.copied = [] ∧
     lookupFile (restore_backup (create_backup [⟨"a.txt", [120], true, 9⟩]
        [⟨"a.txt", some (.hfile [120]), 5, "current", "file"⟩]).run.copied [])
       "a.txt" = none) ∧
    (∀ (fs : List SrcFile) (store₀ : List Entry)
       (dest₀ : List (String × List Nat)),
       (fs.map (·.relPath)).Nodup →
       (∀ f ∈ fs, f.readable = true) →
       (create_backup fs store₀).failed = false →
       ∀ f ∈ fs,
         lookupFile (restore_backup (create_backup fs store₀).run.copied dest₀)
           f.relPath = some f.content) := by
  constructor
  · exact ⟨by decide, by decide, by decide⟩
  · intro fs store₀ dest₀ hnodup hread hok f hf
    have hcopied : (create_backup fs store₀).run.copied =
        fs.map (fun f => (f.relPath, f.content)) := by
      rw [create_backup_run_copied,
        walkFiles_ok_copied (baselineDictOf store₀) fs _
          ((create_backup_ok_iff fs store₀).mp hok),
        List.filter_eq_self.mpr (fun a ha => hread a ha)]
      rfl
    rw [hcopied]
    refine lookupFile_restore_mem _ dest₀ f.relPath f.content ?_
      (List.mem_map.mpr ⟨f, hf, rfl⟩)
    rw [List.map_map]
    exact hnodup

/-! ## Folder-hash lemmas (C5) -/

theorem lexLe_cons_self (x : Nat) (xs ys : List Nat) :
    lexLe (x :: xs) (x :: ys) = lexLe xs ys := by
  simp [lexLe]

theorem lexLe_cons_lt {x y : Nat} (h : x < y) (xs ys : List Nat) :
    lexLe (x :: xs) (y :: ys) = true := by
  simp [lexLe, h]

theorem lexLe_cons_gt {x y : Nat} (h : y < x) (xs ys : List Nat) :
    lexLe (x :: xs) (y :: ys) = false := by
  simp [lexLe, h, Nat.lt_asymm h]

theorem lexLe_total (a : List Nat) : ∀ b, lexLe a b = true ∨ lexLe b a = true := by
  induction a with
  | nil =>
    intro b
    exact Or.inl rfl
  | cons x xs ih =>
    intro b
    cases b with
    | nil => exact Or.inr rfl
    | cons y ys =>
      rcases Nat.lt_trichotomy x y with h | h | h
      · exact Or.inl (lexLe_cons_lt h xs ys)
      · subst h
        rcases ih ys with h2 | h2
        · left
          rw [lexLe_cons_self]
          exact h2
        · right
          rw [lexLe_cons_self]
          exact h2
      · exact Or.inr (lexLe_cons_lt h ys xs)

theorem lexLe_trans (a : List Nat) :
    ∀ b c, lexLe a b = true → lexLe b c = true → lexLe a c = true := by
  induction a with
  | nil =>
    intro b c _ _
    rfl
  | cons x xs ih =>
    intro b c hab hbc
    cases b with
    | nil => exact Bool.noConfusion hab
    | cons y ys =>
      cases c with
      | nil => exact Bool.noConfusion hbc
      | cons z zs =>
        rcases Nat.lt_trichotomy x y with h1 | h1 | h1
        · rcases Nat.lt_trichotomy y z with h2 | h2 | h2
          · exact lexLe_cons_lt (Nat.lt_trans h1 h2) xs zs
          · subst h2
            exact lexLe_cons_lt h1 xs zs
          · rw [lexLe_cons_gt h2] at hbc
            exact Bool.noConfusion hbc
        · subst h1
          rcases Nat.lt_trichotomy x z with h2 | h2 | h2
          · exact lexLe_cons_lt h2 xs zs
          · subst h2
            rw [lexLe_cons_self] at hab hbc ⊢
            exact ih ys zs hab hbc
          · rw [lexLe_cons_gt h2] at hbc
            exact Bool.noConfusion hbc
        · rw [lexLe_cons_gt h1] at hab
          exact Bool.noConfusion hab

theorem lexLe_antisymm (a : List Nat) :
    ∀ b, lexLe a b = true → lexLe b a = true → a = b := by
  induction a with
  | nil =>
    intro b _ hba
    cases b with
    | nil => rfl
    | cons y ys => exact Bool.noConfusion hba
  | cons x xs ih =>
    intro b hab hba
    cases b with
    | nil => exact Bool.noConfusion hab
    | cons y ys =>
      rcases Nat.lt_trichotomy x y with h | h | h
      · rw [lexLe_cons_gt h ys xs] at hba
        exact Bool.noConfusion hba
      · subst h
        rw [lexLe_cons_self] at hab hba
        rw [ih ys hab hba]
      · rw [lexLe_cons_gt h xs ys] at hab
        exact Bool.noConfusion hab

theorem sortPairs_eq_of_perm (l₁ l₂ : List (List Nat × List HChunk))
    (hperm : l₁.Perm l₂) (hnod : (l₁.map (·.1)).Nodup) :
    l₁.insertionSort (fun a b => lexLe a.1 b.1 = true) =
      l₂.insertionSort (fun a b => lexLe a.1 b.1 = true) := by
  haveI : IsTotal (List Nat × List HChunk) (fun a b => lexLe a.1 b.1 = true) :=
    ⟨fun a b => lexLe_total a.1 b.1⟩
  haveI : IsTrans (List Nat × List HChunk) (fun a b => lexLe a.1 b.1 = true) :=
    ⟨fun a b c => lexLe_trans a.1 b.1 c.1⟩
  haveI : IsAntisymm (List Nat × List HChunk)
      (fun a b => (lexLe a.1 b.1 = true) ∧ a.1 ≠ b.1) :=
    ⟨fun a b hab hba => absurd (lexLe_antisymm a.1 b.1 hab.1 hba.1) hab.2⟩
  have hp₁ := List.perm_insertionSort
    (fun (a b : List Nat × List HChunk) => lexLe a.1 b.1 = true) l₁
  have hp₂ := List.perm_insertionSort
    (fun (a b : List Nat × List HChunk) => lexLe a.1 b.1 = true) l₂
  have hs₁ := List.sorted_insertionSort
    (fun (a b : List Nat × List HChunk) => lexLe a.1 b.1 = true) l₁
  have hs₂ := List.sorted_insertionSort
    (fun (a b : List Nat × List HChunk) => lexLe a.1 b.1 = true) l₂
  have hnod₂ : (l₂.map (·.1)).Nodup := ((hperm.map (·.1)).nodup_iff).mp hnod
  have hn₁ : ((l₁.insertionSort (fun a b => lexLe a.1 b.1 = true)).map (·.1)).Nodup :=
    ((hp₁.map (·.1)).nodup_iff).mpr hnod
  have hn₂ : ((l₂.insertionSort (fun a b => lexLe a.1 b.1 = true)).map (·.1)).Nodup :=
    ((hp₂.map (·.1)).nodup_iff).mpr hnod₂
  have hpw₁ : (l₁.insertionSort (fun a b => lexLe a.1 b.1 = true)).Pairwise
      (fun a b => a.1 ≠ b.1) := List.pairwise_map.mp hn₁
  have hpw₂ : (l₂.insertionSort (fun a b => lexLe a.1 b.1 = true)).Pairwise
      (fun a b => a.1 ≠ b.1) := List.pairwise_map.mp hn₂
  have hss₁ : (l₁.insertionSort (fun a b => lexLe a.1 b.1 = true)).Pairwise
      (fun a b => (lexLe a.1 b.1 = true) ∧ a.1 ≠ b.1) :=
    List.Pairwise.and hs₁ hpw₁
  have hss₂ : (l₂.insertionSort (fun a b => lexLe a.1 b.1 = true)).Pairwise
      (fun a b => (lexLe a.1 b.1 = true) ∧ a.1 ≠ b.1) :=
    List.Pairwise.and hs₂ hpw₂
  exact List.eq_of_perm_of_sorted (hp₁.trans (hperm.trans hp₂.symm)) hss₁ hss₂

theorem childrenChunks_eq_map (l : List FSEntry) :
    childrenChunks l = l.map (fun e => (e.name, childChunks e)) := by
  induction l with
  | nil => rfl
  | cons e rest ih =>
    rw [childrenChunks, ih, List.map_cons]

theorem childrenChunks_keys (l : List FSEntry) :
    (childrenChunks l).map (·.1) = l.map FSEntry.name := by
  rw [childrenChunks_eq_map, List.map_map]
  rfl

theorem chunkNames_append (l₁ l₂ : List HChunk) :
    chunkNames (l₁ ++ l₂) = chunkNames l₁ ++ chunkNames l₂ :=
  List.filterMap_append l₁ l₂ _

theorem chunkNames_childChunks (e : FSEntry) :
    chunkNames (childChunks e) = [e.name] := by
  cases e with
  | file n r c => cases r <;> simp [childChunks, chunkNames, FSEntry.name]
  | dir n ch => simp [childChunks, chunkNames, FSEntry.name]

theorem childrenChunks_names (l : List FSEntry) :
    ∀ pr ∈ childrenChunks l, chunkNames pr.2 = [pr.1] := by
  intro pr hpr
  rw [childrenChunks_eq_map] at hpr
  obtain ⟨e, _, rfl⟩ := List.mem_map.mp hpr
  exact chunkNames_childChunks e

theorem chunkNames_flatten_of_each (N : List (List Nat × List HChunk))
    (hs : ∀ pr ∈ N, chunkNames pr.2 = [pr.1]) :
    chunkNames ((N.map (·.2)).flatten) = N.map (·.1) := by
  induction N with
  | nil => rfl
  | cons pr rest ih =>
    rw [List.map_cons, List.map_cons, List.flatten_cons, chunkNames_append]
    rw [hs pr (by simp), ih (fun q hq => hs q (by simp [hq]))]
    rfl

theorem chunkNames_flattenSorted (l : List FSEntry) :
    chunkNames (flattenSorted (childrenChunks l)) =
      ((childrenChunks l).insertionSort (fun a b => lexLe a.1 b.1 = true)).map (·.1) := by
  unfold flattenSorted
  refine chunkNames_flatten_of_each _ ?_
  intro pr hpr
  exact childrenChunks_names l pr
    ((List.perm_insertionSort (fun (a b : List Nat × List HChunk) =>
        lexLe a.1 b.1 = true) (childrenChunks l)).mem_iff.mp hpr)

theorem withName_name (m : List Nat) (c : FSEntry) :
    (c.withName m).name = m := by
  cases c <;> rfl

/-- **C5** — Directory digest: permuting the order in which the filesystem
enumerates a directory's entries leaves `calculate_folder_hash` unchanged
(the explicit sort by name neutralizes iteration order), while renaming any
child (to a name not already used in the directory) changes it. -/
theorem folder_hash_rename_and_order :
    (∀ (n : List Nat) (l₁ l₂ : List FSEntry), l₁.Perm l₂ →
       (l₁.map FSEntry.name).Nodup →
       calculate_folder_hash (.dir n l₁) = calculate_folder_hash (.dir n l₂)) ∧
    (∀ (n m : List Nat) (pre post : List FSEntry) (c : FSEntry),
       m ∉ (pre ++ c :: post).map FSEntry.name →
       calculate_folder_hash (.dir n (pre ++ c.withName m :: post)) ≠
       calculate_folder_hash (.dir n (pre ++ c :: post))) := by
  constructor
  · intro n l₁ l₂ hperm hnod
    have hpairs : (childrenChunks l₁).Perm (childrenChunks l₂) := by
      rw [childrenChunks_eq_map, childrenChunks_eq_map]
      exact hperm.map _
    have hkeys : ((childrenChunks l₁).map (·.1)).Nodup := by
      rw [childrenChunks_keys]
      exact hnod
    have hsort := sortPairs_eq_of_perm _ _ hpairs hkeys
    simp only [calculate_folder_hash, flattenSorted]
    rw [hsort]
  · intro n m pre post c hfresh heq
    simp only [calculate_folder_hash, Option.some.injEq, HChunk.hfolder.injEq,
      List.cons.injEq, true_and] at heq
    have h2 := congrArg chunkNames heq
    rw [chunkNames_flattenSorted, chunkNames_flattenSorted] at h2
    have hmemIn : m ∈ ((childrenChunks (pre ++ c.withName m :: post)).insertionSort
        (fun a b => lexLe a.1 b.1 = true)).map (·.1) := by
      have h3 : m ∈ (childrenChunks (pre ++ c.withName m :: post)).map (·.1) := by
        rw [childrenChunks_keys]
        refine List.mem_map.mpr ⟨c.withName m, ?_, withName_name m c⟩
        exact List.mem_append.mpr (Or.inr (List.mem_cons.mpr (Or.inl rfl)))
      obtain ⟨pr, hpr, hpr2⟩ := List.mem_map.mp h3
      exact List.mem_map.mpr ⟨pr,
        ((List.perm_insertionSort (fun (a b : List Nat × List HChunk) =>
            lexLe a.1 b.1 = true) _).mem_iff).mpr hpr, hpr2⟩
    rw [h2] at hmemIn
    obtain ⟨pr, hpr, hpr2⟩ := List.mem_map.mp hmemIn
    have hpr' : pr ∈ childrenChunks (pre ++ c :: post) :=
      (List.perm_insertionSort (fun (a b : List Nat × List HChunk) =>
          lexLe a.1 b.1 = true) _).mem_iff.mp hpr
    have hback : m ∈ (childrenChunks (pre ++ c :: post)).map (·.1) :=
      List.mem_map.mpr ⟨pr, hpr', hpr2⟩
    rw [childrenChunks_keys] at hback
    exact hfresh hback

/-- Witness for `folder_hash_rename_and_order` at concrete inputs: swapping
two listed children leaves the digest unchanged; renaming child `[97]` to the
fresh name `[109]` changes it. -/
theorem folder_hash_rename_and_order_witness :
    calculate_folder_hash (.dir [100] [.file [98] true [1], .file [97] false [2]]) =
      calculate_folder_hash (.dir [100] [.file [97] false [2], .file [98] true [1]]) ∧
    calculate_folder_hash
        (.dir [100] ([] ++ FSEntry.withName [109] (.file [97] true [1]) :: [])) ≠
      calculate_folder_hash (.dir [100] ([] ++ FSEntry.file [97] true [1] :: [])) :=
  ⟨folder_hash_rename_and_order.1 [100] _ _
     (List.Perm.swap (FSEntry.file [97] false [2]) (FSEntry.file [98] true [1]) [])
     (by simp [FSEntry.name]),
   folder_hash_rename_and_order.2 [100] [109] [] [] (.file [97] true [1])
     (by simp [FSEntry.name])⟩

end IntelliFIM
